import Mathlib

/-!
Verification of the MIL code-generation backend in
`src/pathfinder/compiler/mil/milprint_summer.c` (the "Core tree → MIL"
translator).  The development shallowly embeds

* the scope-annotation pre-pass `append_lev` / `update_expansion` and the
  usage-relation post-processing in `PFprintMILtemp` (lines 2353-2523),
* the recursive code generator `translate2MIL` and its helpers
  (`translateSeq`, `saveResult`/`deleteResult`, `translateIfThen`,
  `translateLocsteps`, `loop_liftedSCJ`, `translateFunction`, ...), with the
  emitted program text abstracted into a list of `Chunk`s — one chunk per
  `fprintf` site / helper call, carrying exactly the varying format
  arguments, so that equality of chunk lists coincides with bit-identity of
  the emitted text, and
* the run-time semantics of three emitted MIL fragments: the cardinality
  checks of `loop_liftedAttrConstr`, the effective-boolean-value code of
  `fn:boolean` in `translateFunction`, and the attribute-uniqueness check of
  `loop_liftedElemConstr`.
-/

namespace MilPrint

/-! ## 1. The scope-annotation pass (`append_lev`, lines 2402-2476)

`append_lev` walks the Core tree carrying a dynamic array `way` of the
enclosing for-ids and a 3-slot counter array (FID, ACT_FID, VID).  Variable
descriptors (`PFvar_t`) are shared between the binding node and all
reference nodes; the upstream scope-checking phase established that
sharing.  We model the sharing with an environment mapping variable names
to the `(vid, base)` fields the binder wrote, which is equivalent on
well-scoped trees (`wsc` below).  Core-tree nodes other than `c_var`,
`c_for` and `c_let` just recurse into their child array
(`PFCNODE_MAXCHILD` = 4 children; absent children behave like leaves). -/

/-- Input Core tree for the annotation pass: variables are identified by
name; `cotherN` stands for every other node kind (the `else` branch of
`append_lev` recurses into all children left to right), `cnilN` both for
`c_nil` leaves and for absent child slots. -/
inductive Cnode where
  | cvarN (name : String)
  | cforN (v : String) (pv : Option String) (src body : Cnode)
  | cletN (v : String) (bound body : Cnode)
  | cnilN
  | cotherN (c0 c1 c2 c3 : Cnode)
deriving DecidableEq, Repr

/-- The annotated tree produced by the pass: each `for` node carries its
assigned fid (`c->sem.num`) and the vids of its loop variable and optional
positional variable; each `let` carries the vid and the base (`ACT_FID`
value) written into its variable; each variable reference records the
`(vid, base)` fields it read from its shared descriptor (none if the
reference was unbound, in which case the C code would read fields never
initialised by this pass). -/
inductive ANode where
  | avar (name : String) (bnd : Option (Nat × Nat))
  | afor (fid : Nat) (vvid : Nat) (pvvid : Option Nat) (src body : ANode)
  | alet (vvid : Nat) (base : Nat) (bound body : ANode)
  | anil
  | aother (a0 a1 a2 a3 : ANode)
deriving DecidableEq, Repr

/-- The three counters `FID`, `ACT_FID`, `VID` of the counter array plus the
list of `var_usage.insert(vid, fid)` statements emitted so far (the pass
prints these inserts to the output stream; at run time they just populate
the `var_usage` bat in order). -/
structure ASt where
  fid : Nat
  actFid : Nat
  vid : Nat
  usage : List (Nat × Nat)
deriving DecidableEq, Repr

/-- Environment lookup: innermost binding of a name first. -/
def lookupEnv : List (String × Nat × Nat) → String → Option (Nat × Nat)
  | [], _ => none
  | (m, v, b) :: rest, n => if m = n then some (v, b) else lookupEnv rest n

/-- `update_expansion` (lines 2370-2387): walk `way` from the innermost
entry outwards and, for every entry strictly greater than the variable's
`base`, record the pair `(vid, entry)`; the walk stops at the first entry
that is not greater than `base`. -/
def updateExpansion (vid base : Nat) (way : List Nat) : List (Nat × Nat) :=
  (way.reverse.takeWhile (fun s => decide (base < s))).map (fun s => (vid, s))

/-- `append_lev` (lines 2402-2476).  On a `c_var`: record the usage pairs
(and mark the descriptor used — the flag is not needed by the claims about
this pass).  On a `c_for`: recurse into the source expression first, then
increment FID and assign it as this node's fid, push it on `way`, assign
`(vid, base := fid)` to the loop variable and (if the positional child is a
variable) to the positional variable, recurse into the body, set `ACT_FID`
to the top of `way` (this node's own fid) and pop `way`.  On a `c_let`:
recurse into the bound expression, then assign `(vid, base := ACT_FID)`,
then recurse into the body.  Any other node: recurse into the children in
order.  (The `PFarray` helpers live outside this repository's sources;
they are the usual growable array: `PFarray_add` appends, `PFarray_top`
reads the last element, `PFarray_del` removes it — modelled with list
append / last / pop.) -/
def annF : Cnode → List (String × Nat × Nat) → List Nat → ASt → ANode × ASt
  | .cvarN n, env, way, st =>
    match lookupEnv env n with
    | some (v, b) =>
      (.avar n (some (v, b)), { st with usage := st.usage ++ updateExpansion v b way })
    | none => (.avar n none, st)
  | .cforN x pv src body, env, way, st =>
    let r1 := annF src env way st
    let st1 := r1.2
    let fid := st1.fid + 1
    let vidx := st1.vid
    (match pv with
     | none =>
       let st2 : ASt := { st1 with fid := fid, vid := vidx + 1 }
       let r2 := annF body ((x, vidx, fid) :: env) (way ++ [fid]) st2
       (.afor fid vidx none r1.1 r2.1, { r2.2 with actFid := fid })
     | some p =>
       let vidp := vidx + 1
       let st2 : ASt := { st1 with fid := fid, vid := vidp + 1 }
       let r2 := annF body ((p, vidp, fid) :: (x, vidx, fid) :: env) (way ++ [fid]) st2
       (.afor fid vidx (some vidp) r1.1 r2.1, { r2.2 with actFid := fid }))
  | .cletN x bound body, env, way, st =>
    let r1 := annF bound env way st
    let st1 := r1.2
    let b := st1.actFid
    let vidx := st1.vid
    let r2 := annF body ((x, vidx, b) :: env) way { st1 with vid := vidx + 1 }
    (.alet vidx b r1.1 r2.1, r2.2)
  | .cnilN, _, _, st => (.anil, st)
  | .cotherN c0 c1 c2 c3, env, way, st =>
    let r0 := annF c0 env way st
    let r1 := annF c1 env way r0.2
    let r2 := annF c2 env way r1.2
    let r3 := annF c3 env way r2.2
    (.aother r0.1 r1.1 r2.1 r3.1, r3.2)

/-- Initial counters of `PFprintMILtemp` (lines 2493-2497): all three slots
start at 0, `way` starts empty. -/
def initASt : ASt := ⟨0, 0, 0, []⟩

/-- The annotated tree of a whole-program run. -/
def annTree (t : Cnode) : ANode := (annF t [] [] initASt).1

/-- The raw `var_usage` contents (in insertion order, duplicates kept) of a
whole-program run. -/
def varUsage (t : Cnode) : List (Nat × Nat) := ((annF t [] [] initASt).2).usage

/-- Order used by the post-processing in `PFprintMILtemp` (lines 2511-2522):
`var_usage` is deduplicated (`unique`), sorted by fid (`vu_fid.reverse.sort`)
and refined by vid (`CTrefine(vu_vid)`), i.e. lexicographically by scope id
first, variable id second, both ascending.  Pairs are `(vid, fid)`. -/
def lexR (p q : Nat × Nat) : Prop := p.2 < q.2 ∨ (p.2 = q.2 ∧ p.1 ≤ q.1)

instance : DecidableRel lexR := fun p q =>
  inferInstanceAs (Decidable (p.2 < q.2 ∨ (p.2 = q.2 ∧ p.1 ≤ q.1)))

/-- The deduplicated, (fid, vid)-lexicographically sorted usage relation
`vu_fid`/`vu_vid` handed to the expression translator. -/
def processedRel (t : Cnode) : List (Nat × Nat) :=
  List.insertionSort lexR (varUsage t).dedup

/-- All fids assigned to `for` nodes in an annotated (sub)tree. -/
def forIds : ANode → List Nat
  | .avar _ _ => []
  | .anil => []
  | .afor fid _ _ s b => fid :: (forIds s ++ forIds b)
  | .alet _ _ b c => forIds b ++ forIds c
  | .aother a b c d => forIds a ++ forIds b ++ forIds c ++ forIds d

/-- The ordering property claimed by the specification: every `for` node's
fid is strictly greater than the fids of ALL `for` nodes below it
(equivalently: strictly greater than all its `for` ancestors' fids). -/
def claimNest : ANode → Bool
  | .afor fid _ _ s b =>
    claimNest s && claimNest b && (forIds s ++ forIds b).all (fun g => decide (fid < g))
  | .alet _ _ b c => claimNest b && claimNest c
  | .aother a b c d => claimNest a && claimNest b && claimNest c && claimNest d
  | _ => true

/-- The ordering property the code actually guarantees: every `for` node's
fid is strictly smaller than the fids of all `for` nodes inside its loop
BODY (`for` nodes inside the source child are annotated before the fid is
allocated and receive smaller fids). -/
def nestOK : ANode → Bool
  | .afor fid _ _ s b =>
    nestOK s && nestOK b && (forIds b).all (fun g => decide (fid < g))
  | .alet _ _ b c => nestOK b && nestOK c
  | .aother a b c d => nestOK a && nestOK b && nestOK c && nestOK d
  | _ => true

/-- The usage pairs contributed by an annotated subtree when the enclosing
way-stack is `way`: exactly the walk `update_expansion` performs, re-read
off the annotated tree (the body of a `for` is visited with its fid
pushed). -/
def uCollect : ANode → List Nat → List (Nat × Nat)
  | .avar _ none, _ => []
  | .avar _ (some (v, b)), way => updateExpansion v b way
  | .afor fid _ _ s b, way => uCollect s way ++ uCollect b (way ++ [fid])
  | .alet _ _ b c, way => uCollect b way ++ uCollect c way
  | .anil, _ => []
  | .aother a b c d, way =>
    uCollect a way ++ uCollect b way ++ uCollect c way ++ uCollect d way

/-- Same traversal with the stop-at-first-smaller walk replaced by a plain
filter: for a bound reference with recorded `(vid, base)`, the pairs
`(vid, s)` for every enclosing body-scope `s` with `base < s`. -/
def annPairs : ANode → List Nat → List (Nat × Nat)
  | .avar _ none, _ => []
  | .avar _ (some (v, b)), way =>
    (way.filter (fun s => decide (b < s))).map (fun s => (v, s))
  | .afor fid _ _ s b, way => annPairs s way ++ annPairs b (way ++ [fid])
  | .alet _ _ b c, way => annPairs b way ++ annPairs c way
  | .anil, _ => []
  | .aother a b c d, way =>
    annPairs a way ++ annPairs b way ++ annPairs c way ++ annPairs d way

/-- Well-scopedness of the input tree: every variable reference is in the
scope of a binding of its name (this is what the upstream phases guarantee;
on such trees the name-environment model coincides with the C pointer
sharing). -/
def wsc : Cnode → List String → Bool
  | .cvarN n, env => env.contains n
  | .cforN x pv s b, env =>
    wsc s env && wsc b (match pv with | some p => p :: x :: env | none => x :: env)
  | .cletN x bo b, env => wsc bo env && wsc b (x :: env)
  | .cnilN, _ => true
  | .cotherN a b c d, env => wsc a env && wsc b env && wsc c env && wsc d env

/-- Modelled from the spec: the scopes "introduced strictly between" a
definition and a reference (spec §8, usage-relation completeness).  The
walk keeps, for every visible binding, the list of for-scope ids opened
since that binding was introduced; a reference contributes one pair per
such scope.  (This is the specification-side definition used to exhibit
the divergence of claim C5; `annPairs` above is the code-side one.) -/
def specUsage : ANode → List (Nat × List Nat) → List (Nat × Nat)
  | .avar _ none, _ => []
  | .avar _ (some (v, _)), env =>
    (match env.find? (fun p : Nat × List Nat => p.1 == v) with
     | some p => p.2
     | none => []).map (fun s => (v, s))
  | .afor fid vv pv s b, env =>
    specUsage s env ++
      specUsage b
        ((match pv with | some p => [(p, ([] : List Nat))] | none => []) ++
         (vv, ([] : List Nat)) :: env.map (fun p => (p.1, p.2 ++ [fid])))
  | .alet vv _ bo b, env =>
    specUsage bo env ++ specUsage b ((vv, ([] : List Nat)) :: env)
  | .anil, _ => []
  | .aother a b c d, env =>
    specUsage a env ++ specUsage b env ++ specUsage c env ++ specUsage d env

/-- Spec-side processed relation: the pairs demanded by the claim,
deduplicated and sorted like the code sorts. -/
def specRel (t : Cnode) : List (Nat × Nat) :=
  List.insertionSort lexR ((specUsage (annTree t) []).dedup)

instance : IsTotal (Nat × Nat) lexR :=
  ⟨fun p q => by unfold lexR; omega⟩

instance : IsTrans (Nat × Nat) lexR :=
  ⟨fun a b c hab hbc => by unfold lexR at hab hbc ⊢; omega⟩

instance : IsAntisymm (Nat × Nat) lexR :=
  ⟨fun a b hab hba => by
    unfold lexR at hab hba
    obtain ⟨x, y⟩ := a
    obtain ⟨z, w⟩ := b
    simp only [Prod.mk.injEq]
    simp only at hab hba
    omega⟩

/-- The Core tree exhibiting the divergence of claim C5:
`for x in nil return (let y := nil in (for z in nil return y))`. -/
def t5c : Cnode :=
  .cforN "x" none .cnilN (.cletN "y" .cnilN (.cforN "z" none .cnilN (.cvarN "y")))

/-! ## 2. The expression translator (`translate2MIL`, lines 2021-2351)

The translator only appends text to the stream `f` — except for one
`printf` (line 2144) that goes to the process's standard output.  We
abstract the emitted text into `Chunk`s: one constructor per `fprintf`
site or text-emitting helper call, carrying exactly the varying format
arguments, so two translations emit bit-identical text iff their chunk
lists are equal.  A translation returns a pair of chunk lists: the text
written to `f` and the text written to standard output.  Fatal translation
aborts (`PFoops`) are modelled with `Except`. -/

/-- Variable descriptor fields read by the translator (`sem.var->vid`,
`sem.var->used`), as left behind by the annotation pass. -/
structure VarD where
  vid : Nat
  used : Bool
deriving DecidableEq, Repr

/-- Namespace of a qualified function name (`PFns_fn`, `PFns_pf` are
distinct namespace constants defined outside this file; only their
distinctness matters to the dispatch in `translateFunction`). -/
inductive NSuri where
  | fnNS
  | pfNS
  | otherNS (uri : String)
deriving DecidableEq, Repr

/-- A qualified name as compared by `PFqname_eq` (namespace + local part). -/
structure QNameM where
  ns : NSuri
  loc : String
deriving DecidableEq, Repr

/-- Axis node kinds accepted by the axis switch of `translateLocsteps`
(lines 935-975); `otherAx` stands for any other node kind sitting in the
axis position (the `default:` branch). -/
inductive AxK where
  | ancestor
  | ancestorOrSelf
  | attributeAx
  | childAx
  | descendant
  | descendantOrSelf
  | following
  | followingSibling
  | parentAx
  | preceding
  | precedingSibling
  | selfAx
  | otherAx
deriving DecidableEq, Repr

/-- Node-test kinds accepted by the test switch of `translateLocsteps`
(lines 977-1019); for `c_namet` the semantic payload is the qname's
namespace uri (NULL modelled as `none`) and local part (possibly NULL);
`otherTest` is the `default:` branch. -/
inductive TK where
  | namet (ns loc : Option String)
  | kindNode
  | kindComment
  | kindText
  | kindPi
  | kindDoc
  | kindElem
  | kindAttr
  | otherTest
deriving DecidableEq, Repr

/-- The Core tree as seen by `translate2MIL` (after annotation): `cfor`
carries its fid (`sem.num`) and variable descriptors, `clocsteps` carries
the axis- and test-node kinds of its step child, `capply` carries the
function's qname and its first argument (`args->child[0]`, the only
argument any of the built-in translations reads). -/
inductive ACnode where
  | cvar (v : VarD)
  | cseq (l r : ACnode)
  | clet (v : VarD) (bound body : ACnode)
  | cfor (v : VarD) (pv : Option VarD) (fid : Nat) (src body : ACnode)
  | cif (cond thn els : ACnode)
  | clocsteps (ax : AxK) (tst : TK) (ctx : ACnode)
  | celem (name content : ACnode)
  | cattr (name content : ACnode)
  | ctag (ns : Option String) (loc : String)
  | ctext (content : ACnode)
  | clitStr (s : String)
  | clitInt (n : Nat)
  | clitDec (v : Rat)
  | clitDbl (v : Rat)
  | ctrue
  | cfalse
  | croot
  | cempty
  | cseqcast (e : ACnode)
  | capply (fn : QNameM) (arg : ACnode)
  | cnil
deriving DecidableEq, Repr

/-- One tag per `fprintf` site / text-emitting helper of the translator.
Distinct sites print distinct fixed format strings. -/
inductive CTag where
  | translateEmptyC
  | translateVarC
  | saveResultC
  | deleteResultC
  | translateSeqC
  | projectC
  | getExpandedC
  | expandC
  | joinC
  | mapBackC
  | cleanUpLevelC
  | createNewVarTableC
  | insertVarC
  | createEnumerationC
  | castQNameC
  | loopLiftedElemConstrC
  | loopLiftedAttrConstrC
  | loopLiftedTextConstrC
  | forOpenC
  | forVarExpC
  | forIfExpandOpenC
  | forElseC
  | forEndIfC
  | forCloseC
  | ifOpenC
  | ifSelSkipC
  | itInitC
  | itP1OpenC
  | itSelFalseC
  | itP1IterC
  | itExpOidC
  | itP1CloseC
  | itP2OpenC
  | itP2ElseC
  | itP2CloseC
  | itP3OpenC
  | itP3CloseC
  | itCloseC
  | ifCloseStdoutC
  | tagOpenC
  | tagCloseC
  | translateConstC
  | litStrOpenC
  | litIntOpenC
  | litDecOpenC
  | litDblOpenC
  | boolOpenC
  | rootOpenC
  | rootCloseC
  | litCloseC
  | locstepsOpenC
  | scjAttrOpenC
  | scjAttrNsC
  | scjAttrLocC
  | scjAttrCloseC
  | scjKindC
  | scjNsLocC
  | scjLocC
  | scjNsC
  | scjPlainC
  | locstepsFetchC
  | kindAttrC
  | kindNodeC
  | locstepsCloseC
  | fnDocC
  | fnDdoC
  | fnCountC
  | fnEmptyC
  | fnNotC
  | fnBooleanC
deriving DecidableEq, Repr

/-- One chunk of emitted program text: the emitting site's tag together
with the varying format arguments that site prints (numbers, strings,
floating literals, booleans, in site order).  Every site prints a text
that is an injective function of its arguments, and distinct sites print
distinct fixed format strings, so two translations emit bit-identical text
iff their chunk lists are equal. -/
structure Chunk where
  tag : CTag
  nats : List Nat := []
  strs : List String := []
  rats : List Rat := []
  bools : List Bool := []
deriving DecidableEq, Repr

/-- `translateEmpty` (lines 352-361). -/
def Chunk.translateEmptyC : Chunk := { tag := .translateEmptyC }
/-- `translateVar` (lines 395-408): level and vid. -/
def Chunk.translateVarC (lvl vid : Nat) : Chunk := { tag := .translateVarC, nats := [lvl, vid] }
/-- `saveResult` (lines 418-433). -/
def Chunk.saveResultC (ctr : Nat) : Chunk := { tag := .saveResultC, nats := [ctr] }
/-- `deleteResult` (lines 443-452). -/
def Chunk.deleteResultC (ctr : Nat) : Chunk := { tag := .deleteResultC, nats := [ctr] }
/-- `translateSeq` (lines 463-494). -/
def Chunk.translateSeqC (ctr : Nat) : Chunk := { tag := .translateSeqC, nats := [ctr] }
/-- `project` (lines 502-517). -/
def Chunk.projectC (lvl : Nat) : Chunk := { tag := .projectC, nats := [lvl] }
/-- `getExpanded` (lines 528-546). -/
def Chunk.getExpandedC (lvl fid : Nat) : Chunk := { tag := .getExpandedC, nats := [lvl, fid] }
/-- `expand` (lines 555-584). -/
def Chunk.expandC (lvl : Nat) : Chunk := { tag := .expandC, nats := [lvl] }
/-- `join` (lines 593-644). -/
def Chunk.joinC (lvl : Nat) : Chunk := { tag := .joinC, nats := [lvl] }
/-- `mapBack` (lines 653-675). -/
def Chunk.mapBackC (lvl : Nat) : Chunk := { tag := .mapBackC, nats := [lvl] }
/-- `cleanUpLevel` (lines 371-384). -/
def Chunk.cleanUpLevelC (lvl : Nat) : Chunk := { tag := .cleanUpLevelC, nats := [lvl] }
/-- `createNewVarTable` (lines 684-703). -/
def Chunk.createNewVarTableC (lvl : Nat) : Chunk := { tag := .createNewVarTableC, nats := [lvl] }
/-- `insertVar` (lines 734-758). -/
def Chunk.insertVarC (lvl vid : Nat) : Chunk := { tag := .insertVarC, nats := [lvl, vid] }
/-- `createEnumeration` (lines 1070-1086). -/
def Chunk.createEnumerationC : Chunk := { tag := .createEnumerationC }
/-- `castQName` (lines 1096-1171). -/
def Chunk.castQNameC : Chunk := { tag := .castQNameC }
/-- `loop_liftedElemConstr` (lines 1181-1579). -/
def Chunk.loopLiftedElemConstrC (i : Nat) : Chunk := { tag := .loopLiftedElemConstrC, nats := [i] }
/-- `loop_liftedAttrConstr` (lines 1772-1833). -/
def Chunk.loopLiftedAttrConstrC (lvl i : Nat) : Chunk := { tag := .loopLiftedAttrConstrC, nats := [lvl, i] }
/-- `loop_liftedTextConstr` (lines 1841-1895). -/
def Chunk.loopLiftedTextConstrC : Chunk := { tag := .loopLiftedTextConstrC }
def Chunk.forOpenC : Chunk := { tag := .forOpenC }
def Chunk.forVarExpC : Chunk := { tag := .forVarExpC }
def Chunk.forIfExpandOpenC : Chunk := { tag := .forIfExpandOpenC }
def Chunk.forElseC : Chunk := { tag := .forElseC }
def Chunk.forEndIfC : Chunk := { tag := .forEndIfC }
def Chunk.forCloseC : Chunk := { tag := .forCloseC }
/-- The opening of the ifthenelse block (line 2104). -/
def Chunk.ifOpenC : Chunk := { tag := .ifOpenC }
/-- The `selected` / `skip` prologue (lines 2112-2119), printing
`item%03u` twice with the saved boolean-result counter. -/
def Chunk.ifSelSkipC (boolRes : Nat) : Chunk := { tag := .ifSelSkipC, nats := [boolRes] }
/-- The scope-copy prologue of `translateIfThen` (lines 1929-1939). -/
def Chunk.itInitC (lvl : Nat) : Chunk := { tag := .itInitC, nats := [lvl] }
def Chunk.itP1OpenC : Chunk := { tag := .itP1OpenC }
/-- The else branch re-selects the false iterations (line 1949). -/
def Chunk.itSelFalseC (boolRes : Nat) : Chunk := { tag := .itSelFalseC, nats := [boolRes] }
/-- Lines 1951-1957: derive the branch loop from the selection. -/
def Chunk.itP1IterC (lvl boolRes : Nat) : Chunk := { tag := .itP1IterC, nats := [lvl, boolRes] }
def Chunk.itExpOidC (lvl : Nat) : Chunk := { tag := .itExpOidC, nats := [lvl] }
def Chunk.itP1CloseC : Chunk := { tag := .itP1CloseC }
/-- Phase-2 opening: `if (skip != 1)` for the then branch, `if (skip != 2)`
for the else branch (lines 1972-1975). -/
def Chunk.itP2OpenC (thenB : Bool) : Chunk := { tag := .itP2OpenC, bools := [thenB] }
def Chunk.itP2ElseC : Chunk := { tag := .itP2ElseC }
def Chunk.itP2CloseC : Chunk := { tag := .itP2CloseC }
def Chunk.itP3OpenC : Chunk := { tag := .itP3OpenC }
def Chunk.itP3CloseC : Chunk := { tag := .itP3CloseC }
def Chunk.itCloseC : Chunk := { tag := .itCloseC }
/-- The closing `} # end of ifthenelse-translation` line.  The C source
emits it with `printf` (line 2144), i.e. to standard output instead of the
stream `f`. -/
def Chunk.ifCloseStdoutC : Chunk := { tag := .ifCloseStdoutC }
/-- Tagname translation prologue (lines 2187-2205), printing ns and loc. -/
def Chunk.tagOpenC (ns loc : String) : Chunk := { tag := .tagOpenC, strs := [ns, loc] }
def Chunk.tagCloseC : Chunk := { tag := .tagCloseC }
/-- `translateConst` (lines 768-779): level and kind string. -/
def Chunk.translateConstC (lvl : Nat) (k : String) : Chunk :=
  { tag := .translateConstC, nats := [lvl], strs := [k] }
/-- String-literal interning prologue (lines 2227-2235). -/
def Chunk.litStrOpenC (s : String) : Chunk := { tag := .litStrOpenC, strs := [s] }
/-- Integer-literal interning prologue (lines 2246-2253). -/
def Chunk.litIntOpenC (n : Nat) : Chunk := { tag := .litIntOpenC, nats := [n] }
/-- Decimal-literal interning prologue (lines 2264-2271). -/
def Chunk.litDecOpenC (v : Rat) : Chunk := { tag := .litDecOpenC, rats := [v] }
/-- Double-literal interning prologue (lines 2282-2289). -/
def Chunk.litDblOpenC (v : Rat) : Chunk := { tag := .litDblOpenC, rats := [v] }
/-- `c_true` / `c_false` prologue binding `itemID` (lines 2296-2314). -/
def Chunk.boolOpenC (b : Bool) : Chunk := { tag := .boolOpenC, bools := [b] }
/-- `c_root` prologue (lines 2323-2325). -/
def Chunk.rootOpenC : Chunk := { tag := .rootOpenC }
/-- `c_root` epilogue with the fragment-kind projection (lines 2328-2332). -/
def Chunk.rootCloseC : Chunk := { tag := .rootCloseC }
/-- The shared `itemID := nil; }` epilogue of the literal cases. -/
def Chunk.litCloseC : Chunk := { tag := .litCloseC }
/-- `translateLocsteps` header (lines 921-933). -/
def Chunk.locstepsOpenC : Chunk := { tag := .locstepsOpenC }
/-- Attribute-axis block of `loop_liftedSCJ` up to the filters (lines 801-821). -/
def Chunk.scjAttrOpenC : Chunk := { tag := .scjAttrOpenC }
/-- Namespace filter of the attribute axis (lines 825-836). -/
def Chunk.scjAttrNsC (ns : String) : Chunk := { tag := .scjAttrNsC, strs := [ns] }
/-- Local-name filter of the attribute axis (lines 840-851). -/
def Chunk.scjAttrLocC (loc : String) : Chunk := { tag := .scjAttrLocC, strs := [loc] }
/-- Attribute-axis epilogue building `res_scj` (lines 856-865). -/
def Chunk.scjAttrCloseC : Chunk := { tag := .scjAttrCloseC }
/-- `loop_lifted_<axis>_step_with_kind_test_joined` call (lines 873-876). -/
def Chunk.scjKindC (axis k : String) : Chunk := { tag := .scjKindC, strs := [axis, k] }
/-- `loop_lifted_<axis>_step_with_nsloc_test_joined` call (lines 880-883). -/
def Chunk.scjNsLocC (axis ns loc : String) : Chunk := { tag := .scjNsLocC, strs := [axis, ns, loc] }
/-- `loop_lifted_<axis>_step_with_loc_test_joined` call (lines 887-890). -/
def Chunk.scjLocC (axis loc : String) : Chunk := { tag := .scjLocC, strs := [axis, loc] }
/-- `loop_lifted_<axis>_step_with_ns_test_joined` call (lines 894-897). -/
def Chunk.scjNsC (axis ns : String) : Chunk := { tag := .scjNsC, strs := [axis, ns] }
/-- `loop_lifted_<axis>_step_joined` call (lines 901-904). -/
def Chunk.scjPlainC (axis : String) : Chunk := { tag := .scjPlainC, strs := [axis] }
/-- Reading back `res_scj` (lines 1022-1026). -/
def Chunk.locstepsFetchC : Chunk := { tag := .locstepsFetchC }
/-- `kind := res_scj.fetch(2).get_kind(ATTR);` (line 1028). -/
def Chunk.kindAttrC : Chunk := { tag := .kindAttrC }
/-- `kind := res_scj.fetch(2).get_kind(NODE);` (line 1030). -/
def Chunk.kindNodeC : Chunk := { tag := .kindNodeC }
def Chunk.locstepsCloseC : Chunk := { tag := .locstepsCloseC }
/-- `fn:doc` translation (lines 1599-1615). -/
def Chunk.fnDocC : Chunk := { tag := .fnDocC }
/-- `pf:distinct-doc-order` translation (lines 1620-1643). -/
def Chunk.fnDdoC : Chunk := { tag := .fnDdoC }
/-- `fn:count` translation (lines 1648-1664). -/
def Chunk.fnCountC (lvl : Nat) : Chunk := { tag := .fnCountC, nats := [lvl] }
/-- `fn:empty` translation (lines 1669-1681). -/
def Chunk.fnEmptyC (lvl : Nat) : Chunk := { tag := .fnEmptyC, nats := [lvl] }
/-- `fn:not` translation (lines 1686-1689). -/
def Chunk.fnNotC : Chunk := { tag := .fnNotC }
/-- `fn:boolean` translation (lines 1695-1758). -/
def Chunk.fnBooleanC (lvl : Nat) : Chunk := { tag := .fnBooleanC, nats := [lvl] }

/-- Fatal translation aborts (`PFoops` calls reachable from
`translate2MIL`). -/
inductive Fatal where
  | illegalAxis
  | illegalNodeTest
  | notSupported
deriving DecidableEq, Repr

/-- Emitted output: chunks written to the stream `f`, and chunks written to
standard output. -/
abbrev Out := List Chunk × List Chunk

instance {ε α : Type} [DecidableEq ε] [DecidableEq α] : DecidableEq (Except ε α) :=
  fun a b =>
    match a, b with
    | .ok x, .ok y => decidable_of_iff (x = y) (by constructor <;> intro h <;> simp_all)
    | .error x, .error y =>
      decidable_of_iff (x = y) (by constructor <;> intro h <;> simp_all)
    | .ok _, .error _ => isFalse (by simp)
    | .error _, .ok _ => isFalse (by simp)

/-- `axis` string chosen by the axis switch of `translateLocsteps`
(lines 935-975): note that `c_self` sets `axis = "attribute"` (lines
970-972, the attribute code path), and any other kind aborts with
"illegal XPath axis". -/
def axisStr : AxK → Option String
  | .ancestor => some "ancestor"
  | .ancestorOrSelf => some "ancestor_or_self"
  | .attributeAx => some "attribute"
  | .childAx => some "child"
  | .descendant => some "descendant"
  | .descendantOrSelf => some "descendant_or_self"
  | .following => some "following"
  | .followingSibling => some "following_sibling"
  | .parentAx => some "parent"
  | .preceding => some "preceding"
  | .precedingSibling => some "preceding_sibling"
  | .selfAx => some "attribute"
  | .otherAx => none

/-- `loop_liftedSCJ` (lines 793-907): the attribute axis emits the inline
attribute-lookup code with optional namespace / local-name filters; any
other axis dispatches on which filters are present to one of five external
staircase-join primitives, selected by name concatenation. -/
def loopLiftedSCJ (axis : String) (k ns loc : Option String) : List Chunk :=
  if axis = "attribute" then
    [Chunk.scjAttrOpenC] ++
      (match ns with | some s => [Chunk.scjAttrNsC s] | none => []) ++
      (match loc with | some s => [Chunk.scjAttrLocC s] | none => []) ++
      [Chunk.scjAttrCloseC]
  else
    match k with
    | some kk => [Chunk.scjKindC axis kk]
    | none =>
      match ns, loc with
      | some n, some l => [Chunk.scjNsLocC axis n l]
      | none, some l => [Chunk.scjLocC axis l]
      | some n, none => [Chunk.scjNsC axis n]
      | none, none => [Chunk.scjPlainC axis]

/-- Chunks shared by every successful `translateLocsteps` run: header
(restriction to node-kind items), the staircase join, and the epilogue
reading back `res_scj` — with the result kind re-derived to ATTR when the
axis string is "attribute" and to NODE otherwise (lines 1021-1035). -/
def locstepsAssemble (axis : String) (scj : List Chunk) : List Chunk :=
  [Chunk.locstepsOpenC] ++ scj ++ [Chunk.locstepsFetchC] ++
    [(if axis = "attribute" then Chunk.kindAttrC else Chunk.kindNodeC)] ++
    [Chunk.locstepsCloseC]

/-- `translateLocsteps` (lines 916-1036): pick the axis string (fatal on an
illegal axis), then dispatch on the node test — `c_namet` translates a
missing namespace as "" and wildcards "*" as absent filters — and finally
emit the staircase join and the epilogue. -/
def translateLocstepsM (ax : AxK) (tst : TK) : Except Fatal (List Chunk) :=
  match axisStr ax with
  | none => .error .illegalAxis
  | some axis =>
    match tst with
    | .namet ns loc =>
      let ns' : Option String :=
        match ns with
        | none => some ""
        | some s => if s = "*" then none else some s
      let loc' : Option String :=
        match loc with
        | some s => if s = "*" then none else some s
        | none => none
      .ok (locstepsAssemble axis (loopLiftedSCJ axis none ns' loc'))
    | .kindNode => .ok (locstepsAssemble axis (loopLiftedSCJ axis none none none))
    | .kindComment =>
      .ok (locstepsAssemble axis (loopLiftedSCJ axis (some "COMMENT") none none))
    | .kindText =>
      .ok (locstepsAssemble axis (loopLiftedSCJ axis (some "TEXT") none none))
    | .kindPi =>
      .ok (locstepsAssemble axis (loopLiftedSCJ axis (some "PI") none none))
    | .kindDoc =>
      .ok (locstepsAssemble axis (loopLiftedSCJ axis (some "DOCUMENT") none none))
    | .kindElem =>
      .ok (locstepsAssemble axis (loopLiftedSCJ axis (some "ELEMENT") none none))
    | .kindAttr =>
      .ok (locstepsAssemble axis (loopLiftedSCJ axis (some "ATTRIBUTE") none none))
    | .otherTest => .error .illegalNodeTest

/-- `translateIfThen` (lines 1924-1997) without its recursive call: the
fixed text surrounding the translation `bo` of one branch at level
`lvl + 1` (phase 1 sets up the nested scope — the else branch first
re-selects the false iterations —, phase 2 embeds the branch translation
against a `translateEmpty` alternative, phase 3 maps the result back). -/
def ifThenWrap (lvl boolRes : Nat) (thenB : Bool) (bo : Out) : Out :=
  ([Chunk.itInitC (lvl + 1), Chunk.itP1OpenC] ++
     (if thenB then [] else [Chunk.itSelFalseC boolRes]) ++
     [Chunk.itP1IterC (lvl + 1) boolRes, Chunk.itExpOidC (lvl + 1),
      Chunk.expandC (lvl + 1), Chunk.joinC (lvl + 1), Chunk.itP1CloseC,
      Chunk.itP2OpenC thenB] ++
     bo.1 ++
     [Chunk.itP2ElseC, Chunk.translateEmptyC, Chunk.itP2CloseC,
      Chunk.itP3OpenC, Chunk.mapBackC (lvl + 1), Chunk.itP3CloseC,
      Chunk.cleanUpLevelC (lvl + 1), Chunk.itCloseC],
   bo.2)

/-- Recogniser for `c_empty` (the `kind == c_empty` tests in the `c_seq`
and `c_ifthenelse` cases). -/
def isEmptyN : ACnode → Bool
  | .cempty => true
  | _ => false

/-- Recogniser for `c_tag` (the `kind != c_tag` tests in the `c_elem` and
`c_attr` cases). -/
def isTagN : ACnode → Bool
  | .ctag _ _ => true
  | _ => false

/-- The six built-in function names recognised by `translateFunction`
(lines 1591-1762). -/
def fnDocQ : QNameM := ⟨.fnNS, "doc"⟩
def pfDdoQ : QNameM := ⟨.pfNS, "distinct-doc-order"⟩
def fnCountQ : QNameM := ⟨.fnNS, "count"⟩
def fnEmptyQ : QNameM := ⟨.fnNS, "empty"⟩
def fnNotQ : QNameM := ⟨.fnNS, "not"⟩
def fnBoolQ : QNameM := ⟨.fnNS, "boolean"⟩

def builtinQs : List QNameM := [fnDocQ, pfDdoQ, fnCountQ, fnEmptyQ, fnNotQ, fnBoolQ]

/-- `translate2MIL` (lines 2021-2351), together with the inlined
`translateIfThen` wrapper and `translateFunction` dispatch.  Every case
mirrors the corresponding `case c_...:` of the C switch; `act_level` is
`lvl`, the saved-result counter is `ctr`.  The second component of the
output collects the text that goes to standard output: the only
contribution is the `printf` closing the if-then-else block (line 2144). -/
def t2m : ACnode → Nat → Nat → Except Fatal Out
  | .cvar v, lvl, _ => .ok ([Chunk.translateVarC lvl v.vid], [])
  | .cseq l r, lvl, ctr =>
    if isEmptyN l && !(isEmptyN r) then .ok ([Chunk.translateEmptyC], [])
    else if isEmptyN l then t2m r lvl ctr
    else if isEmptyN r then t2m l lvl ctr
    else
      match t2m l lvl ctr with
      | .error e => .error e
      | .ok o1 =>
        match t2m r lvl (ctr + 1) with
        | .error e => .error e
        | .ok o2 =>
          .ok (o1.1 ++ [Chunk.saveResultC (ctr + 1)] ++ o2.1 ++
                 [Chunk.translateSeqC (ctr + 1), Chunk.deleteResultC (ctr + 1)],
               o1.2 ++ o2.2)
  | .clet v bound body, lvl, ctr =>
    match t2m bound lvl ctr with
    | .error e => .error e
    | .ok o1 =>
      match t2m body lvl ctr with
      | .error e => .error e
      | .ok o2 =>
        .ok (o1.1 ++ (if v.used then [Chunk.insertVarC lvl v.vid] else []) ++ o2.1,
             o1.2 ++ o2.2)
  | .cfor v pv fid src body, lvl, ctr =>
    match t2m src lvl ctr with
    | .error e => .error e
    | .ok o1 =>
      match t2m body (lvl + 1) ctr with
      | .error e => .error e
      | .ok o2 =>
        .ok (o1.1 ++
               [Chunk.forOpenC, Chunk.projectC (lvl + 1), Chunk.forVarExpC,
                Chunk.getExpandedC (lvl + 1) fid, Chunk.forIfExpandOpenC,
                Chunk.expandC (lvl + 1), Chunk.joinC (lvl + 1), Chunk.forElseC,
                Chunk.createNewVarTableC (lvl + 1), Chunk.forEndIfC] ++
               (if v.used then [Chunk.insertVarC (lvl + 1) v.vid] else []) ++
               (match pv with
                | some p =>
                  if p.used then
                    [Chunk.createEnumerationC, Chunk.insertVarC (lvl + 1) p.vid]
                  else []
                | none => []) ++
               o2.1 ++
               [Chunk.mapBackC (lvl + 1), Chunk.cleanUpLevelC (lvl + 1),
                Chunk.forCloseC],
             o1.2 ++ o2.2)
  | .cif c0 c1 c2, lvl, ctr =>
    match t2m c0 lvl ctr with
    | .error e => .error e
    | .ok oc =>
      if isEmptyN c2 then
        match t2m c1 (lvl + 1) (ctr + 1) with
        | .error e => .error e
        | .ok bt =>
          let w := ifThenWrap lvl (ctr + 1) true bt
          .ok (oc.1 ++ [Chunk.saveResultC (ctr + 1), Chunk.ifOpenC,
                        Chunk.ifSelSkipC (ctr + 1)] ++
                 w.1 ++ [Chunk.deleteResultC (ctr + 1)],
               oc.2 ++ w.2 ++ [Chunk.ifCloseStdoutC])
      else if isEmptyN c1 then
        match t2m c2 (lvl + 1) (ctr + 1) with
        | .error e => .error e
        | .ok be =>
          let w := ifThenWrap lvl (ctr + 1) false be
          .ok (oc.1 ++ [Chunk.saveResultC (ctr + 1), Chunk.ifOpenC,
                        Chunk.ifSelSkipC (ctr + 1)] ++
                 w.1 ++ [Chunk.deleteResultC (ctr + 1)],
               oc.2 ++ w.2 ++ [Chunk.ifCloseStdoutC])
      else
        match t2m c1 (lvl + 1) (ctr + 1) with
        | .error e => .error e
        | .ok bt =>
          match t2m c2 (lvl + 1) (ctr + 2) with
          | .error e => .error e
          | .ok be =>
            let w1 := ifThenWrap lvl (ctr + 1) true bt
            let w2 := ifThenWrap lvl (ctr + 1) false be
            .ok (oc.1 ++ [Chunk.saveResultC (ctr + 1), Chunk.ifOpenC,
                          Chunk.ifSelSkipC (ctr + 1)] ++
                   w1.1 ++ [Chunk.saveResultC (ctr + 2)] ++ w2.1 ++
                   [Chunk.translateSeqC (ctr + 2), Chunk.deleteResultC (ctr + 2),
                    Chunk.deleteResultC (ctr + 1)],
                 oc.2 ++ w1.2 ++ w2.2 ++ [Chunk.ifCloseStdoutC])
  | .clocsteps ax tst ctx, lvl, ctr =>
    match t2m ctx lvl ctr with
    | .error e => .error e
    | .ok o1 =>
      match translateLocstepsM ax tst with
      | .error e => .error e
      | .ok cs => .ok (o1.1 ++ cs, o1.2)
  | .celem nm cont, lvl, ctr =>
    match t2m nm lvl ctr with
    | .error e => .error e
    | .ok o1 =>
      match t2m cont lvl (ctr + 1) with
      | .error e => .error e
      | .ok o2 =>
        .ok (o1.1 ++ (if isTagN nm then [] else [Chunk.castQNameC]) ++
               [Chunk.saveResultC (ctr + 1)] ++ o2.1 ++
               [Chunk.loopLiftedElemConstrC (ctr + 1),
                Chunk.deleteResultC (ctr + 1)],
             o1.2 ++ o2.2)
  | .cattr nm cont, lvl, ctr =>
    match t2m nm lvl ctr with
    | .error e => .error e
    | .ok o1 =>
      match t2m cont lvl (ctr + 1) with
      | .error e => .error e
      | .ok o2 =>
        .ok (o1.1 ++ (if isTagN nm then [] else [Chunk.castQNameC]) ++
               [Chunk.saveResultC (ctr + 1)] ++ o2.1 ++
               [Chunk.loopLiftedAttrConstrC lvl (ctr + 1),
                Chunk.deleteResultC (ctr + 1)],
             o1.2 ++ o2.2)
  | .ctag ns loc, lvl, _ =>
    .ok ([Chunk.tagOpenC (ns.getD "") loc, Chunk.translateConstC lvl "QNAME",
          Chunk.tagCloseC], [])
  | .ctext cont, lvl, ctr =>
    match t2m cont lvl ctr with
    | .error e => .error e
    | .ok o1 => .ok (o1.1 ++ [Chunk.loopLiftedTextConstrC], o1.2)
  | .clitStr s, lvl, _ =>
    .ok ([Chunk.litStrOpenC s, Chunk.translateConstC lvl "STR", Chunk.litCloseC], [])
  | .clitInt n, lvl, _ =>
    .ok ([Chunk.litIntOpenC n, Chunk.translateConstC lvl "INT", Chunk.litCloseC], [])
  | .clitDec v, lvl, _ =>
    .ok ([Chunk.litDecOpenC v, Chunk.translateConstC lvl "DEC", Chunk.litCloseC], [])
  | .clitDbl v, lvl, _ =>
    .ok ([Chunk.litDblOpenC v, Chunk.translateConstC lvl "DBL", Chunk.litCloseC], [])
  | .ctrue, lvl, _ =>
    .ok ([Chunk.boolOpenC true, Chunk.translateConstC lvl "BOOL", Chunk.litCloseC], [])
  | .cfalse, lvl, _ =>
    .ok ([Chunk.boolOpenC false, Chunk.translateConstC lvl "BOOL", Chunk.litCloseC], [])
  | .croot, lvl, _ =>
    .ok ([Chunk.rootOpenC, Chunk.translateConstC lvl "NODE", Chunk.rootCloseC], [])
  | .cempty, _, _ => .ok ([Chunk.translateEmptyC], [])
  | .cseqcast e, lvl, ctr => t2m e lvl ctr
  | .capply fn arg, lvl, ctr =>
    if fn = fnDocQ then
      match t2m arg lvl ctr with
      | .error e => .error e
      | .ok o1 => .ok (o1.1 ++ [Chunk.fnDocC], o1.2)
    else if fn = pfDdoQ then
      match t2m arg lvl ctr with
      | .error e => .error e
      | .ok o1 => .ok (o1.1 ++ [Chunk.fnDdoC], o1.2)
    else if fn = fnCountQ then
      match t2m arg lvl ctr with
      | .error e => .error e
      | .ok o1 => .ok (o1.1 ++ [Chunk.fnCountC lvl], o1.2)
    else if fn = fnEmptyQ then
      match t2m arg lvl ctr with
      | .error e => .error e
      | .ok o1 => .ok (o1.1 ++ [Chunk.fnEmptyC lvl], o1.2)
    else if fn = fnNotQ then
      match t2m arg lvl ctr with
      | .error e => .error e
      | .ok o1 => .ok (o1.1 ++ [Chunk.fnNotC], o1.2)
    else if fn = fnBoolQ then
      match t2m arg lvl ctr with
      | .error e => .error e
      | .ok o1 => .ok (o1.1 ++ [Chunk.fnBooleanC lvl], o1.2)
    else .ok ([Chunk.translateEmptyC], [])
  | .cnil, _, _ => .error .notSupported

/-! Saved-result slot events (`saveResult` / `deleteResult`, lines
418-452) and the stack-discipline checker for claim C9. -/

/-- A slot event: allocation (`saveResult counter`) or release
(`deleteResult counter`). -/
inductive SlotEv where
  | alloc (n : Nat)
  | free (n : Nat)
deriving DecidableEq, Repr

/-- The slot events contained in a chunk list, in emission order. -/
def slotEvents (cs : List Chunk) : List SlotEv :=
  cs.filterMap fun c =>
    match c.tag with
    | .saveResultC => some (.alloc (c.nats.headD 0))
    | .deleteResultC => some (.free (c.nats.headD 0))
    | _ => none

/-- Stack-discipline checker: starting from the stack `live` of live slot
numbers (innermost first), an allocation must use a number strictly above
every live slot, and a release must name exactly the innermost live slot.
Returns the final stack, or `none` on any violation. -/
def slotRun : List Nat → List SlotEv → Option (List Nat)
  | live, [] => some live
  | live, .alloc n :: es =>
    if live.all (fun m => decide (m < n)) then slotRun (n :: live) es else none
  | live, .free n :: es =>
    match live with
    | [] => none
    | m :: rest => if m = n then slotRun rest es else none

/-! ## 3. Run-time semantics of three emitted MIL fragments

The remaining claims are about what the *generated* program computes, so
we model the run-time behaviour of the relevant emitted fragments on the
abstract 4-column result (one row per item: iteration index, item
reference / value, kind tag). -/

/-- Item kind tags of the 4-column result. -/
inductive MK where
  | STR
  | INT
  | DBL
  | DEC
  | BOOL
  | NODE
  | ATTR
  | QNAME
deriving DecidableEq, Repr

/-- One row of the content result fed to `loop_liftedAttrConstr`: its
iteration index, its item reference and its kind tag. -/
structure Row3 where
  iter : Nat
  item : Nat
  kind : MK
deriving DecidableEq, Repr

/-- The two fatal run-time errors the emitted attribute-constructor checks
can raise (lines 1780-1785), plus the tagname-cardinality error
(line 1790) that concerns the name result, not the content. -/
inductive AttrErr where
  | onlyOneStringPerIter
  | moreThanOneArg
deriving DecidableEq, Repr

/-- Ordering on (iter, item) rows by iteration index, the order
`merged_union` merges by. -/
def leIter (p q : Nat × Nat) : Prop := p.1 ≤ q.1

instance : DecidableRel leIter := fun p q => inferInstanceAs (Decidable (p.1 ≤ q.1))

/-- Run-time semantics of the content checks and empty-iteration
completion emitted by `loop_liftedAttrConstr` (lines 1775-1800): with
`test := iter.tunique`, raise `onlyOneStringPerIter` if the number of
distinct content iterations differs from the number of STR-kind rows;
then with `test := {count}(iter.reverse, test)`, raise `moreThanOneArg`
if the total row count differs from the number of distinct iterations.
Otherwise every iteration of `loop` that has no content row receives the
interned empty string `EMPTY_STRING` (reference `0@0`, inserted by `init`,
lines 90-91) via `merged_union` over the iteration-sorted columns. -/
def attrContentStep (loop : List Nat) (rows : List Row3) : Except AttrErr (List (Nat × Nat)) :=
  let distinct := (rows.map (fun r => r.iter)).dedup
  if distinct.length ≠ (rows.filter (fun r => decide (r.kind = MK.STR))).length then
    .error .onlyOneStringPerIter
  else if rows.length ≠ distinct.length then
    .error .moreThanOneArg
  else
    let present := rows.map (fun r => (r.iter, r.item))
    let missing :=
      (loop.filter (fun it => rows.all (fun r => decide (r.iter ≠ it)))).map
        (fun it => (it, 0))
    .ok (List.insertionSort leIter (present ++ missing))

/-- Values a result row can hold once its item reference is resolved
through the per-kind value tables (`str_values`, `int_values`,
`dbl_values`, `dec_values`, the boolean sentinels `0@0`/`1@0`, node and
attribute references, interned qnames). -/
inductive Val where
  | vbool (b : Bool)
  | vstr (s : String)
  | vint (n : Int)
  | vdbl (q : Rat)
  | vdec (q : Rat)
  | vnode (pre frag : Nat)
  | vattr (a frag : Nat)
  | vqname (q : Nat)
deriving DecidableEq, Repr

/-- The kind-specific zero tests of the emitted `fn:boolean` code
(lines 1710-1749): a single-item iteration's `trues` entry (initially
`count != 0`, i.e. true) is replaced by `false` exactly when the item is
selected by one of `bool_test.ord_uselect(0@0)`,
`str_test.ord_uselect("")`, `int_test.ord_uselect(0)`,
`dec_test.ord_uselect(dbl(0))`, `dbl_test.ord_uselect(dbl(0))`; items of
any other kind are never selected and stay true. -/
def milZeroRep : Val → Bool
  | .vbool b => b
  | .vstr s => decide (s ≠ "")
  | .vint n => decide (n ≠ 0)
  | .vdbl q => decide (q ≠ 0)
  | .vdec q => decide (q ≠ 0)
  | _ => true

/-- Run-time semantics of the code emitted for `fn:boolean`
(lines 1695-1758): per iteration of the active loop,
`iter_count := {count}(iter, loop.reverse)` and
`trues := iter_count.[!=](0)`; the iterations selected by
`iter_count.ord_uselect(1)` (exactly one item) then have their entry
replaced through the kind-specific zero tests; the final result maps the
surviving bit through `bool_map`. -/
def fnBooleanMIL (loop : List Nat) (rows : List (Nat × Val)) : List (Nat × Bool) :=
  loop.map (fun it =>
    let grp := rows.filter (fun r => decide (r.1 = it))
    match grp with
    | [r] => (it, milZeroRep r.2)
    | _ => (it, decide (grp.length ≠ 0)))

/-- Modelled from the spec (§4.2, effective boolean value): the literal
coercion table — empty sequence false, a single boolean itself, a single
string false iff "", a single integer false iff 0, a single double or
decimal false iff 0, anything else (two or more items, or a single item
of any other kind) true. -/
def effBoolSpec (rows : List (Nat × Val)) (it : Nat) : Bool :=
  match rows.filter (fun r => decide (r.1 = it)) with
  | [] => false
  | [(_, .vbool b)] => b
  | [(_, .vstr s)] => decide (s ≠ "")
  | [(_, .vint n)] => decide (n ≠ 0)
  | [(_, .vdbl q)] => decide (q ≠ 0)
  | [(_, .vdec q)] => decide (q ≠ 0)
  | [_] => true
  | _ => true

/-- The working-set tables consulted by the attribute-uniqueness check of
`loop_liftedElemConstr`: `ATTR_QN (frag) (attr)` is the interned-qname
reference of an attribute, `ATTR_FRAG (frag) (attr)` the fragment that
qname reference indexes into, and `QN_NS` / `QN_LOC` resolve a qname
reference within a fragment to its namespace and local name. -/
structure WSAttr where
  attrQN : Nat → Nat → Nat
  attrFrag : Nat → Nat → Nat
  qnNs : Nat → Nat → String
  qnLoc : Nat → Nat → String

/-- An attribute item of the content result, as consumed by the
root-attachment step: `(iter, item, frag)` — its iteration, its attribute
reference and the fragment the reference lives in (from
`kind.get_fragment`). -/
abbrev AttrEnt := Nat × Nat × Nat

/-- The grouping key of the uniqueness test (lines 1520-1523):
`CTgroup(attr_iter) . CTgroup(mposjoin(attr_item, attr_frag, ATTR_QN))
. CTgroup(mposjoin(attr_item, attr_frag, ATTR_FRAG))`, i.e. the triple
(iteration, interned-qname reference, qname fragment). -/
def attrTriple (ws : WSAttr) (a : AttrEnt) : Nat × Nat × Nat :=
  (a.1, ws.attrQN a.2.2 a.2.1, ws.attrFrag a.2.2 a.2.1)

/-- The uniqueness test itself (lines 1520-1534): construction proceeds
iff the number of distinct (iter, qname, fragment) triples equals the
number of attribute items; otherwise the fatal "attributes are not
unique" error is raised. -/
def elemAttrUnique (ws : WSAttr) (attrs : List AttrEnt) : Bool :=
  decide (((attrs.map (attrTriple ws)).dedup).length = attrs.length)

/-- The (namespace, local-name) qualified name an attribute entry resolves
to through the working set. -/
def attrName (ws : WSAttr) (a : AttrEnt) : String × String :=
  (ws.qnNs (ws.attrFrag a.2.2 a.2.1) (ws.attrQN a.2.2 a.2.1),
   ws.qnLoc (ws.attrFrag a.2.2 a.2.1) (ws.attrQN a.2.2 a.2.1))

/-- Concrete working-set instance for the attribute-uniqueness claims: one
qname id 0 per fragment, fragment `fr`'s attributes reference fragment
`fr`'s qname table, and every fragment's qname 0 resolves to the same
qualified name `("", "a")`. -/
def wsC7 : WSAttr := ⟨fun _ _ => 0, fun fr _ => fr, fun _ _ => "", fun _ _ => "a"⟩

/-! ## 4. Helper lemmas -/

theorem dedup_length_iff {α : Type} [DecidableEq α] (l : List α) :
    l.dedup.length = l.length ↔ l.Nodup := by
  constructor
  · intro h
    have hs : l.dedup.Sublist l := l.dedup_sublist
    have he : l.dedup = l := hs.eq_of_length h
    rw [← he]
    exact l.nodup_dedup
  · intro h
    rw [List.dedup_eq_self.2 h]

theorem filter_length_iff {α : Type} (p : α → Bool) (l : List α) :
    (l.filter p).length = l.length ↔ ∀ a ∈ l, p a = true := by
  constructor
  · intro h a ha
    have hs : List.Sublist (l.filter p) l := l.filter_sublist
    have he : l.filter p = l := hs.eq_of_length h
    exact (List.filter_eq_self.1 he) a ha
  · intro h
    rw [List.filter_eq_self.2 h]

theorem isEmptyN_iff (X : ACnode) : isEmptyN X = true ↔ X = ACnode.cempty := by
  cases X <;> simp [isEmptyN]

/-! ## 5. Claim theorems -/

/-- Claim C1, counterexample: the claim asserts that translating
`(empty, X)` emits output identical to translating `X` alone; at
`X = c_true` the code instead emits the empty-sequence translation
(line 2034-2036: when the left child is `c_empty` and the right child is
not, `translateEmpty` is called and the right child is never translated),
which differs from the translation of `c_true`. -/
theorem claim1_counterexample :
    t2m (.cseq .cempty .ctrue) 0 0 ≠ t2m .ctrue 0 0 ∧
    t2m (.cseq .cempty .ctrue) 0 0 = .ok ([Chunk.translateEmptyC], []) := by
  decide

/-- Claim C1, amended: translating `(X, empty)` emits output bit-identical
to translating `X` alone, for every core expression `X`; translating
`(empty, X)` does so only when `X` is itself `empty` — for non-empty `X`
it emits the empty-sequence translation instead, discarding `X`. -/
theorem claim1_amended (X : ACnode) (lvl ctr : Nat) :
    t2m (.cseq X .cempty) lvl ctr = t2m X lvl ctr ∧
    (X ≠ ACnode.cempty →
      t2m (.cseq .cempty X) lvl ctr = .ok ([Chunk.translateEmptyC], [])) := by
  constructor
  · by_cases hX : X = ACnode.cempty
    · subst hX
      simp [t2m, isEmptyN]
    · have hfalse : isEmptyN X = false := by
        cases hIX : isEmptyN X
        · rfl
        · exact absurd ((isEmptyN_iff X).1 hIX) hX
      simp [t2m, hfalse, isEmptyN]
  · intro hX
    have hfalse : isEmptyN X = false := by
      cases hIX : isEmptyN X
      · rfl
      · exact absurd ((isEmptyN_iff X).1 hIX) hX
    simp [t2m, hfalse, isEmptyN]

/-- Witness for the amended claim C1 at `X = c_true`. -/
theorem claim1_witness :
    ACnode.ctrue ≠ ACnode.cempty ∧
    t2m (.cseq .ctrue .cempty) 0 0 = t2m .ctrue 0 0 ∧
    t2m (.cseq .cempty .ctrue) 0 0 = .ok ([Chunk.translateEmptyC], []) :=
  ⟨by decide, (claim1_amended .ctrue 0 0).1, (claim1_amended .ctrue 0 0).2 (by decide)⟩

/-- Claim C2: translating the if-then-else node `if (true) then true else
false` writes the program line `} # end of ifthenelse-translation` to
standard output (the `printf` at line 2144) instead of to the output sink
`f` — the matching opening brace (line 2104) was written to `f`, so the
sink receives unbalanced program text while part of the generated program
goes to another channel, contradicting the claim. -/
theorem claim2_code_bug :
    Except.map (fun o : Out => o.2) (t2m (.cif .ctrue .ctrue .cfalse) 0 0) =
      .ok [Chunk.ifCloseStdoutC] := by
  decide

/-- Claim C6: the code emitted for `fn:boolean` computes, per iteration of
the active loop, exactly the effective-boolean-value table of the
specification (empty sequence false; a single boolean itself; a single
string false iff ""; a single integer false iff 0; a single double or
decimal false iff 0; two or more items, or a single item of any other
kind, true). -/
theorem claim6_thm (loop : List Nat) (rows : List (Nat × Val)) :
    fnBooleanMIL loop rows = loop.map (fun it => (it, effBoolSpec rows it)) := by
  unfold fnBooleanMIL
  induction loop with
  | nil => rfl
  | cons it rest ih =>
    simp only [List.map_cons]
    rw [ih]
    congr 1
    rcases h : rows.filter (fun r => decide (r.1 = it)) with _ | ⟨⟨a, v⟩, _ | ⟨r2, tl⟩⟩
    · simp [effBoolSpec, h]
    · cases v <;> simp [effBoolSpec, h, milZeroRep]
    · simp only [effBoolSpec, h]
      rfl

/-- Claim C8: a function-application node whose qualified name is none of
the six recognised built-ins (`fn:doc`, `pf:distinct-doc-order`,
`fn:count`, `fn:empty`, `fn:not`, `fn:boolean`) translates to exactly the
empty-sequence translation (`translateEmpty`, line 1761), with no fatal
error and without even translating the argument. -/
theorem claim8_thm (fn : QNameM) (h : fn ∉ builtinQs) (arg : ACnode) (lvl ctr : Nat) :
    t2m (.capply fn arg) lvl ctr = .ok ([Chunk.translateEmptyC], []) := by
  simp only [builtinQs, List.mem_cons, List.not_mem_nil, or_false, not_or] at h
  obtain ⟨h1, h2, h3, h4, h5, h6⟩ := h
  simp [t2m, h1, h2, h3, h4, h5, h6]

/-- Witness for claim C8 at the unrecognised name `fn:string`. -/
theorem claim8_witness :
    ((⟨.fnNS, "string"⟩ : QNameM) ∉ builtinQs) ∧
    t2m (.capply ⟨.fnNS, "string"⟩ .cempty) 0 0 = .ok ([Chunk.translateEmptyC], []) :=
  ⟨by decide, claim8_thm _ (by decide) _ 0 0⟩

/-- Claim C10: a location step on the self axis never takes the
illegal-axis abort; the axis switch maps `c_self` to the axis string
"attribute" (lines 970-972), so for every node test the emitted step code
is identical to that of an attribute step with the same test — including
the epilogue that re-derives the result kind to ATTR rather than NODE
(line 1027-1028). -/
theorem claim10_thm (tst : TK) :
    translateLocstepsM .selfAx tst = translateLocstepsM .attributeAx tst ∧
    translateLocstepsM .selfAx tst ≠ .error Fatal.illegalAxis := by
  refine ⟨rfl, ?_⟩
  cases tst <;> simp [translateLocstepsM, axisStr]

/-- Claim C3, counterexample: with active loop iterations {0, 1} and a
content result holding one string only for iteration 0, iteration 1 has
zero string values, yet the emitted checks raise no error: the code
completes the missing iteration with the interned empty string
`EMPTY_STRING` (reference 0) and construction proceeds. -/
theorem claim3_counterexample :
    (∀ r ∈ ([⟨0, 5, MK.STR⟩] : List Row3), r.iter ≠ 1) ∧
    attrContentStep [0, 1] [⟨0, 5, MK.STR⟩] = .ok [(0, 5), (1, 0)] := by
  decide

/-- Claim C3, amended: the emitted checks raise a fatal error iff some
content row is not a string or some iteration carries two or more content
rows; an active iteration with no content row at all is not an error —
it receives the interned empty string (reference 0, `EMPTY_STRING`)
instead, and construction proceeds. -/
theorem claim3_amended (loop : List Nat) (rows : List Row3) :
    ((∃ e, attrContentStep loop rows = .error e) ↔
      ¬ ((rows.map (fun r => r.iter)).Nodup ∧ ∀ r ∈ rows, r.kind = MK.STR)) ∧
    (∀ out, attrContentStep loop rows = .ok out →
      ∀ it ∈ loop, (∀ r ∈ rows, r.iter ≠ it) → (it, 0) ∈ out) := by
  have hmaplen : (rows.map (fun r => r.iter)).length = rows.length :=
    List.length_map _ _
  have hkey :
      (((rows.map (fun r => r.iter)).dedup).length =
          (rows.filter (fun r => decide (r.kind = MK.STR))).length ∧
        rows.length = ((rows.map (fun r => r.iter)).dedup).length) ↔
      ((rows.map (fun r => r.iter)).Nodup ∧ ∀ r ∈ rows, r.kind = MK.STR) := by
    constructor
    · rintro ⟨hA, hB⟩
      have hdl : ((rows.map (fun r => r.iter)).dedup).length =
          (rows.map (fun r => r.iter)).length := by
        rw [hmaplen, ← hB]
      have hnd : (rows.map (fun r => r.iter)).Nodup := (dedup_length_iff _).1 hdl
      refine ⟨hnd, fun r hr => ?_⟩
      have hfl : (rows.filter (fun r => decide (r.kind = MK.STR))).length = rows.length := by
        rw [← hA, ← hB]
      exact of_decide_eq_true ((filter_length_iff _ _).1 hfl r hr)
    · rintro ⟨hnd, hstr⟩
      have hd : ((rows.map (fun r => r.iter)).dedup).length = rows.length := by
        rw [(dedup_length_iff _).2 hnd, hmaplen]
      have hf : (rows.filter (fun r => decide (r.kind = MK.STR))).length = rows.length :=
        (filter_length_iff _ _).2 (fun a ha => decide_eq_true (hstr a ha))
      exact ⟨by rw [hd, hf], by rw [hd]⟩
  constructor
  · rw [← hkey]
    simp only [attrContentStep]
    split
    · rename_i h1
      constructor
      · intro _
        rintro ⟨hA, _⟩
        exact h1 hA
      · intro _
        exact ⟨AttrErr.onlyOneStringPerIter, rfl⟩
    · rename_i h1
      split
      · rename_i h2
        constructor
        · intro _
          rintro ⟨_, hB⟩
          exact h2 hB
        · intro _
          exact ⟨AttrErr.moreThanOneArg, rfl⟩
      · rename_i h2
        constructor
        · rintro ⟨e, he⟩
          exact Except.noConfusion he
        · intro hC
          exact absurd ⟨not_not.1 (fun hx => h1 hx), not_not.1 (fun hx => h2 hx)⟩ hC
  · intro out hout it hit hno
    simp only [attrContentStep] at hout
    split at hout
    · exact Except.noConfusion hout
    · split at hout
      · exact Except.noConfusion hout
      · injection hout with hout
        subst hout
        have hmem : (it, 0) ∈
            rows.map (fun r => (r.iter, r.item)) ++
              (loop.filter (fun it' => rows.all (fun r => decide (r.iter ≠ it')))).map
                (fun it' => (it', 0)) := by
          apply List.mem_append_right
          refine List.mem_map.2 ⟨it, List.mem_filter.2 ⟨hit, ?_⟩, rfl⟩
          exact List.all_eq_true.2 (fun r hr => decide_eq_true (hno r hr))
        exact ((List.perm_insertionSort leIter _).mem_iff).2 hmem

/-- Witness for the amended claim C3: a valid one-string-per-iteration
content (iteration 0) with iteration 1 empty — the step succeeds and
iteration 1 receives the interned empty string. -/
theorem claim3_witness :
    (attrContentStep [0, 1] [⟨0, 5, MK.STR⟩] = .ok [(0, 5), (1, 0)] ∧
      (1 : Nat) ∈ [0, 1] ∧ (∀ r ∈ ([⟨0, 5, MK.STR⟩] : List Row3), r.iter ≠ 1)) ∧
    ((1 : Nat), (0 : Nat)) ∈ [(0, 5), (1, 0)] :=
  ⟨⟨by decide, by decide, by decide⟩,
    (claim3_amended [0, 1] [⟨0, 5, MK.STR⟩]).2 [(0, 5), (1, 0)] (by decide) 1
      (by decide) (by decide)⟩

/-- Claim C7, counterexample: two attribute items in the same iteration
whose qname references live in different fragments but resolve to the
same qualified name `("", "a")` — the emitted uniqueness test compares
(iteration, qname reference, fragment) triples, finds them distinct, and
raises no error, although the claim demands the fatal "attributes are not
unique" error for equal (namespace, local-name) pairs. -/
theorem claim7_counterexample :
    elemAttrUnique wsC7 [(1, 0, 0), (1, 0, 1)] = true ∧
    attrName wsC7 (1, 0, 0) = attrName wsC7 (1, 0, 1) ∧
    ((1, 0, 0) : AttrEnt).1 = ((1, 0, 1) : AttrEnt).1 ∧
    ((1, 0, 0) : AttrEnt) ≠ ((1, 0, 1) : AttrEnt) := by
  decide

/-- Claim C7, amended: the emitted code raises the fatal "attributes are
not unique" error iff two attribute items of one iteration carry the same
interned qname reference and fragment; since a (reference, fragment) pair
resolves to a single (namespace, local-name), attributes with pairwise
distinct per-iteration qualified names never raise the error — but equal
qualified names interned in different fragments escape detection. -/
theorem claim7_amended (ws : WSAttr) (attrs : List AttrEnt) :
    (elemAttrUnique ws attrs = false ↔ ¬ (attrs.map (attrTriple ws)).Nodup) ∧
    ((attrs.map (fun a => (a.1, attrName ws a))).Nodup →
      elemAttrUnique ws attrs = true) := by
  have hlen : (attrs.map (attrTriple ws)).length = attrs.length := List.length_map _ _
  constructor
  · unfold elemAttrUnique
    rw [decide_eq_false_iff_not, ← hlen, dedup_length_iff]
  · intro h
    have hmm : attrs.map (fun a => (a.1, attrName ws a)) =
        (attrs.map (attrTriple ws)).map
          (fun t => (t.1, ws.qnNs t.2.2 t.2.1, ws.qnLoc t.2.2 t.2.1)) := by
      rw [List.map_map]
      rfl
    rw [hmm] at h
    have hnd : (attrs.map (attrTriple ws)).Nodup := h.of_map _
    unfold elemAttrUnique
    rw [decide_eq_true_eq, ← hlen, dedup_length_iff]
    exact hnd

/-- Witness for the amended claim C7: two same-name attributes in
different iterations — names per iteration distinct, no error raised. -/
theorem claim7_witness :
    ((([(1, 0, 0), (2, 0, 0)] : List AttrEnt).map
        (fun a => (a.1, attrName wsC7 a))).Nodup) ∧
    elemAttrUnique wsC7 [(1, 0, 0), (2, 0, 0)] = true :=
  ⟨by decide, (claim7_amended wsC7 _).2 (by decide)⟩

/-- The FID counter never decreases, and every fid assigned inside a
subtree lies strictly above the counter value at entry and at most at the
counter value at exit. -/
theorem annF_fid_bounds (t : Cnode) :
    ∀ env way st, st.fid ≤ ((annF t env way st).2).fid ∧
      ∀ g ∈ forIds ((annF t env way st).1),
        st.fid < g ∧ g ≤ ((annF t env way st).2).fid := by
  induction t with
  | cvarN n =>
    intro env way st
    simp only [annF]
    cases lookupEnv env n with
    | none => simp [forIds]
    | some vb => simp [forIds]
  | cforN x pv src body ihs ihb =>
    intro env way st
    obtain ⟨hms, hbs⟩ := ihs env way st
    simp only [annF]
    cases pv with
    | none =>
      obtain ⟨hmb, hbb⟩ :=
        ihb ((x, (annF src env way st).2.vid, (annF src env way st).2.fid + 1) :: env)
          (way ++ [(annF src env way st).2.fid + 1])
          { (annF src env way st).2 with
            fid := (annF src env way st).2.fid + 1,
            vid := (annF src env way st).2.vid + 1 }
      constructor
      · exact le_trans (le_trans hms (Nat.le_succ _)) hmb
      · intro g hg
        simp only [forIds, List.mem_cons, List.mem_append] at hg
        rcases hg with rfl | hg | hg
        · exact ⟨Nat.lt_succ_of_le hms, le_trans (Nat.le_refl _) hmb⟩
        · obtain ⟨h1, h2⟩ := hbs g hg
          exact ⟨h1, le_trans h2 (le_trans (Nat.le_succ _) hmb)⟩
        · obtain ⟨h1, h2⟩ := hbb g hg
          exact ⟨lt_of_le_of_lt (le_trans hms (Nat.le_succ _)) h1, h2⟩
    | some p =>
      obtain ⟨hmb, hbb⟩ :=
        ihb ((p, (annF src env way st).2.vid + 1, (annF src env way st).2.fid + 1) ::
              (x, (annF src env way st).2.vid, (annF src env way st).2.fid + 1) :: env)
          (way ++ [(annF src env way st).2.fid + 1])
          { (annF src env way st).2 with
            fid := (annF src env way st).2.fid + 1,
            vid := (annF src env way st).2.vid + 1 + 1 }
      constructor
      · exact le_trans (le_trans hms (Nat.le_succ _)) hmb
      · intro g hg
        simp only [forIds, List.mem_cons, List.mem_append] at hg
        rcases hg with rfl | hg | hg
        · exact ⟨Nat.lt_succ_of_le hms, le_trans (Nat.le_refl _) hmb⟩
        · obtain ⟨h1, h2⟩ := hbs g hg
          exact ⟨h1, le_trans h2 (le_trans (Nat.le_succ _) hmb)⟩
        · obtain ⟨h1, h2⟩ := hbb g hg
          exact ⟨lt_of_le_of_lt (le_trans hms (Nat.le_succ _)) h1, h2⟩
  | cletN x bound body ihb ihc =>
    intro env way st
    obtain ⟨hm1, hb1⟩ := ihb env way st
    obtain ⟨hm2, hb2⟩ :=
      ihc ((x, (annF bound env way st).2.vid, (annF bound env way st).2.actFid) :: env)
        way { (annF bound env way st).2 with vid := (annF bound env way st).2.vid + 1 }
    simp only [annF]
    constructor
    · exact le_trans hm1 hm2
    · intro g hg
      simp only [forIds, List.mem_append] at hg
      rcases hg with hg | hg
      · obtain ⟨h1, h2⟩ := hb1 g hg
        exact ⟨h1, le_trans h2 hm2⟩
      · obtain ⟨h1, h2⟩ := hb2 g hg
        exact ⟨lt_of_le_of_lt hm1 h1, h2⟩
  | cnilN =>
    intro env way st
    simp [annF, forIds]
  | cotherN c0 c1 c2 c3 ih0 ih1 ih2 ih3 =>
    intro env way st
    obtain ⟨m0, b0⟩ := ih0 env way st
    obtain ⟨m1, b1⟩ := ih1 env way (annF c0 env way st).2
    obtain ⟨m2, b2⟩ := ih2 env way (annF c1 env way (annF c0 env way st).2).2
    obtain ⟨m3, b3⟩ :=
      ih3 env way (annF c2 env way (annF c1 env way (annF c0 env way st).2).2).2
    simp only [annF]
    constructor
    · exact le_trans m0 (le_trans m1 (le_trans m2 m3))
    · intro g hg
      simp only [forIds, List.mem_append] at hg
      rcases hg with ((hg | hg) | hg) | hg
      · obtain ⟨h1, h2⟩ := b0 g hg
        exact ⟨h1, le_trans h2 (le_trans m1 (le_trans m2 m3))⟩
      · obtain ⟨h1, h2⟩ := b1 g hg
        exact ⟨lt_of_le_of_lt m0 h1, le_trans h2 (le_trans m2 m3)⟩
      · obtain ⟨h1, h2⟩ := b2 g hg
        exact ⟨lt_of_le_of_lt (le_trans m0 m1) h1, le_trans h2 m3⟩
      · obtain ⟨h1, h2⟩ := b3 g hg
        exact ⟨lt_of_le_of_lt (le_trans m0 (le_trans m1 m2)) h1, h2⟩

/-- Every annotated tree satisfies the body-nesting property: each `for`
node's fid is strictly below all fids inside its loop body. -/
theorem annF_nestOK (t : Cnode) :
    ∀ env way st, nestOK ((annF t env way st).1) = true := by
  induction t with
  | cvarN n =>
    intro env way st
    simp only [annF]
    cases lookupEnv env n with
    | none => rfl
    | some vb => rfl
  | cforN x pv src body ihs ihb =>
    intro env way st
    simp only [annF]
    cases pv with
    | none =>
      simp only [nestOK, Bool.and_eq_true, List.all_eq_true]
      refine ⟨⟨ihs env way st, ihb _ _ _⟩, fun g hg => ?_⟩
      have := (annF_fid_bounds body _ _
        { (annF src env way st).2 with
          fid := (annF src env way st).2.fid + 1,
          vid := (annF src env way st).2.vid + 1 }).2 g hg
      exact decide_eq_true this.1
    | some p =>
      simp only [nestOK, Bool.and_eq_true, List.all_eq_true]
      refine ⟨⟨ihs env way st, ihb _ _ _⟩, fun g hg => ?_⟩
      have := (annF_fid_bounds body _ _
        { (annF src env way st).2 with
          fid := (annF src env way st).2.fid + 1,
          vid := (annF src env way st).2.vid + 1 + 1 }).2 g hg
      exact decide_eq_true this.1
  | cletN x bound body ihb ihc =>
    intro env way st
    simp only [annF, nestOK, Bool.and_eq_true]
    exact ⟨ihb env way st, ihc _ _ _⟩
  | cnilN =>
    intro env way st
    rfl
  | cotherN c0 c1 c2 c3 ih0 ih1 ih2 ih3 =>
    intro env way st
    simp only [annF, nestOK, Bool.and_eq_true]
    exact ⟨⟨⟨ih0 _ _ _, ih1 _ _ _⟩, ih2 _ _ _⟩, ih3 _ _ _⟩

/-- Claim C4, counterexample: for the tree
`for x in (for y in nil return nil) return nil` the annotator assigns fid 1
to the inner `for` (which sits in the outer `for`'s SOURCE child and is
annotated before the outer fid is allocated, lines 2419-2428) and fid 2 to
the outer `for` — so the inner `for`'s scope id is NOT strictly greater
than its ancestor's, refuting the claim. -/
theorem claim4_counterexample :
    annTree (.cforN "x" none (.cforN "y" none .cnilN .cnilN) .cnilN) =
      .afor 2 1 none (.afor 1 0 none .anil .anil) .anil ∧
    claimNest (annTree (.cforN "x" none (.cforN "y" none .cnilN .cnilN) .cnilN)) =
      false := by
  decide

/-- Claim C4, amended: every `for` node's assigned scope id is strictly
greater than the scope ids of those ancestor `for` nodes whose loop BODY
contains it; a `for` node contained in an ancestor's source expression is
annotated before that ancestor's id is allocated and receives a strictly
smaller id. -/
theorem claim4_amended (t : Cnode) : nestOK (annTree t) = true :=
  annF_nestOK t [] [] initASt

/-- The usage list built by `append_lev` is exactly the one read off the
annotated tree by `uCollect`, appended to whatever was in `var_usage`
before. -/
theorem annF_usage_eq (t : Cnode) :
    ∀ env way st, ((annF t env way st).2).usage =
      st.usage ++ uCollect ((annF t env way st).1) way := by
  induction t with
  | cvarN n =>
    intro env way st
    simp only [annF]
    cases lookupEnv env n with
    | none => simp [uCollect]
    | some vb => simp [uCollect]
  | cforN x pv src body ihs ihb =>
    intro env way st
    simp only [annF]
    cases pv with
    | none =>
      simp only [uCollect]
      rw [ihb, ihs]
      simp [List.append_assoc]
    | some p =>
      simp only [uCollect]
      rw [ihb, ihs]
      simp [List.append_assoc]
  | cletN x bound body ihb ihc =>
    intro env way st
    simp only [annF, uCollect]
    rw [ihc, ihb]
    simp [List.append_assoc]
  | cnilN =>
    intro env way st
    simp [annF, uCollect]
  | cotherN c0 c1 c2 c3 ih0 ih1 ih2 ih3 =>
    intro env way st
    simp only [annF, uCollect]
    rw [ih3, ih2, ih1, ih0]
    simp [List.append_assoc]

/-- On a descending list, the stop-at-first-failure walk of
`update_expansion` keeps exactly the entries above the bound. -/
theorem takeWhile_eq_filter_desc (b : Nat) :
    ∀ l : List Nat, l.Pairwise (fun x y => y ≤ x) →
      l.takeWhile (fun s => decide (b < s)) = l.filter (fun s => decide (b < s)) := by
  intro l hl
  induction l with
  | nil => rfl
  | cons a tl ih =>
    obtain ⟨ha, htl⟩ := List.pairwise_cons.1 hl
    by_cases hba : b < a
    · simp [List.takeWhile_cons, List.filter_cons, decide_eq_true hba, ih htl]
    · have h1 : decide (b < a) = false := decide_eq_false hba
      simp only [List.takeWhile_cons, List.filter_cons, h1]
      rw [List.filter_eq_nil_iff.2 ?_]
      · simp
      · intro y hy
        have : y ≤ a := ha y hy
        simp only [decide_eq_true_eq]
        omega

/-- On a strictly increasing `way`, the pairs recorded by
`update_expansion` are a permutation of the filtered pairs. -/
theorem updateExpansion_perm (v b : Nat) (way : List Nat)
    (hs : way.Pairwise (· < ·)) :
    List.Perm (updateExpansion v b way)
      ((way.filter (fun s => decide (b < s))).map (fun s => (v, s))) := by
  unfold updateExpansion
  have hrev : (way.reverse).Pairwise (fun x y => y ≤ x) := by
    rw [List.pairwise_reverse]
    exact hs.imp (fun h => Nat.le_of_lt h)
  rw [takeWhile_eq_filter_desc b _ hrev]
  rw [List.filter_reverse, List.map_reverse]
  exact ((way.filter (fun s => decide (b < s))).map (fun s => (v, s))).reverse_perm

/-- Over any run of the annotator from a state whose FID counter bounds
the (strictly increasing) `way`, the collected usage pairs are a
permutation of the filtered pairs `annPairs`. -/
theorem annF_uCollect_perm (t : Cnode) :
    ∀ env way st, (∀ w ∈ way, w ≤ st.fid) → way.Pairwise (· < ·) →
      List.Perm (uCollect ((annF t env way st).1) way)
        (annPairs ((annF t env way st).1) way) := by
  induction t with
  | cvarN n =>
    intro env way st hb hs
    simp only [annF]
    cases lookupEnv env n with
    | none => simp [uCollect, annPairs]
    | some vb =>
      simp only [uCollect, annPairs]
      exact updateExpansion_perm vb.1 vb.2 way hs
  | cforN x pv src body ihs ihb =>
    intro env way st hb hs
    have hms := (annF_fid_bounds src env way st).1
    simp only [annF]
    cases pv with
    | none =>
      simp only [uCollect, annPairs]
      refine List.Perm.append (ihs env way st hb hs) (ihb _ _ _ ?_ ?_)
      · intro w hw
        simp only [List.mem_append, List.mem_singleton] at hw
        rcases hw with hw | rfl
        · exact le_trans (le_trans (hb w hw) hms) (Nat.le_succ _)
        · exact Nat.le_refl _
      · rw [List.pairwise_append]
        refine ⟨hs, List.pairwise_singleton _ _, ?_⟩
        intro w hw y hy
        simp only [List.mem_singleton] at hy
        subst hy
        exact Nat.lt_succ_of_le (le_trans (hb w hw) hms)
    | some p =>
      simp only [uCollect, annPairs]
      refine List.Perm.append (ihs env way st hb hs) (ihb _ _ _ ?_ ?_)
      · intro w hw
        simp only [List.mem_append, List.mem_singleton] at hw
        rcases hw with hw | rfl
        · exact le_trans (le_trans (hb w hw) hms) (Nat.le_succ _)
        · exact Nat.le_refl _
      · rw [List.pairwise_append]
        refine ⟨hs, List.pairwise_singleton _ _, ?_⟩
        intro w hw y hy
        simp only [List.mem_singleton] at hy
        subst hy
        exact Nat.lt_succ_of_le (le_trans (hb w hw) hms)
  | cletN x bound body ihb ihc =>
    intro env way st hb hs
    have hm1 := (annF_fid_bounds bound env way st).1
    simp only [annF, uCollect, annPairs]
    refine List.Perm.append (ihb env way st hb hs) (ihc _ _ _ ?_ hs)
    intro w hw
    exact le_trans (hb w hw) hm1
  | cnilN =>
    intro env way st hb hs
    simp [annF, uCollect, annPairs]
  | cotherN c0 c1 c2 c3 ih0 ih1 ih2 ih3 =>
    intro env way st hb hs
    have m0 := (annF_fid_bounds c0 env way st).1
    have m1 := (annF_fid_bounds c1 env way (annF c0 env way st).2).1
    have m2 := (annF_fid_bounds c2 env way (annF c1 env way (annF c0 env way st).2).2).1
    simp only [annF, uCollect, annPairs]
    exact
      (((ih0 env way st hb hs).append
            (ih1 _ _ _ (fun w hw => le_trans (hb w hw) m0) hs)).append
          (ih2 _ _ _ (fun w hw => le_trans (hb w hw) (le_trans m0 m1)) hs)).append
        (ih3 _ _ _ (fun w hw => le_trans (hb w hw) (le_trans m0 (le_trans m1 m2))) hs)

/-- Claim C5, counterexample: in `t5c` the only reference to the let-bound
`y` (vid 1) sits under exactly one for-scope introduced strictly between
its definition and the reference (the `for z` scope, fid 2), so the claim
demands the relation `[(1, 2)]` (as `specRel` computes).  The code instead
produces `[(1, 1), (1, 2)]`: the `let` stored base = `ACT_FID` = 0
(`ACT_FID` is only written when a `for` node completes, line 2449, and no
`for` has completed yet), so `update_expansion` also records the enclosing
`for x` scope (fid 1), which encloses the definition itself. -/
theorem claim5_counterexample :
    processedRel t5c = [(1, 1), (1, 2)] ∧ specRel t5c = [(1, 2)] := by
  decide

/-- Claim C5, amended: for every variable reference `r` bound by a
definition `d`, the deduplicated relation contains the pair
`(vid d, s)` exactly once for every for-scope `s` enclosing `r` whose
scope id is strictly greater than the base recorded for `d` — for
for-bound variables the base is the binder's own scope id, giving exactly
the scopes strictly between `d` and `r`, but for let-bound variables it
is the id of the most recently completed `for` node at binding time
(0 if none), so scopes enclosing the definition itself can also appear —
and nothing else; the entries are sorted by scope id ascending, then
variable id ascending. -/
theorem claim5_amended (t : Cnode) (_h : wsc t [] = true) :
    processedRel t = List.insertionSort lexR ((annPairs (annTree t) []).dedup) ∧
    List.Sorted lexR (processedRel t) ∧ (processedRel t).Nodup := by
  have husage : varUsage t = uCollect (annTree t) [] := by
    have := annF_usage_eq t [] [] initASt
    simpa [varUsage, initASt, annTree] using this
  have hperm : List.Perm (uCollect (annTree t) []) (annPairs (annTree t) []) :=
    annF_uCollect_perm t [] [] initASt (by simp) (by simp)
  refine ⟨?_, List.sorted_insertionSort lexR _,
    ((List.perm_insertionSort lexR _).nodup_iff).2 (List.nodup_dedup _)⟩
  have hdperm : List.Perm ((varUsage t).dedup) ((annPairs (annTree t) []).dedup) := by
    rw [husage]
    exact hperm.dedup
  have h1 : List.Perm (processedRel t)
      (List.insertionSort lexR ((annPairs (annTree t) []).dedup)) :=
    ((List.perm_insertionSort lexR _).trans hdperm).trans
      (List.perm_insertionSort lexR _).symm
  exact List.eq_of_perm_of_sorted h1 (List.sorted_insertionSort lexR _)
    (List.sorted_insertionSort lexR _)

/-- Witness for the amended claim C5 at the tree `t5c`. -/
theorem claim5_witness :
    wsc t5c [] = true ∧
    (processedRel t5c =
        List.insertionSort lexR ((annPairs (annTree t5c) []).dedup) ∧
      List.Sorted lexR (processedRel t5c) ∧ (processedRel t5c).Nodup) :=
  ⟨by decide, claim5_amended t5c (by decide)⟩

theorem slotEvents_append (a b : List Chunk) :
    slotEvents (a ++ b) = slotEvents a ++ slotEvents b :=
  List.filterMap_append _ _ _

theorem slotRun_append (a : List SlotEv) :
    ∀ (live : List Nat) (b : List SlotEv),
      slotRun live (a ++ b) = (slotRun live a).bind (fun l => slotRun l b) := by
  induction a with
  | nil => intro live b; rfl
  | cons e tl ih =>
    intro live b
    cases e with
    | alloc n =>
      simp only [List.cons_append, slotRun]
      by_cases hg : live.all (fun m => decide (m < n)) = true
      · rw [if_pos hg, if_pos hg]; exact ih _ _
      · rw [if_neg hg, if_neg hg]; rfl
    | free n =>
      cases live with
      | nil => rfl
      | cons m tl2 =>
        simp only [List.cons_append, slotRun]
        by_cases hm : m = n
        · rw [if_pos hm, if_pos hm]; exact ih _ _
        · rw [if_neg hm, if_neg hm]; rfl

theorem slotEvents_ite_nil (p : Prop) [Decidable p] (x y : List Chunk)
    (hx : slotEvents x = []) (hy : slotEvents y = []) :
    slotEvents (if p then x else y) = [] := by
  split <;> assumption

/-- Stack-discipline core: a prefix that leaves the stack unchanged,
an allocation strictly above all live slots, a nested segment that leaves
the extended stack unchanged, and the matching release restore the
original stack. -/
theorem slotRun_combo (live : List Nat) (n : Nat) (E1 E2 : List SlotEv)
    (h1 : slotRun live E1 = some live)
    (h2 : slotRun (n :: live) E2 = some (n :: live))
    (hlt : ∀ m ∈ live, m < n) :
    slotRun live (E1 ++ [SlotEv.alloc n] ++ E2 ++ [SlotEv.free n]) = some live := by
  have hg : live.all (fun m => decide (m < n)) = true :=
    List.all_eq_true.2 (fun m hm => decide_eq_true (hlt m hm))
  rw [slotRun_append, slotRun_append, slotRun_append, h1]
  simp only [Option.some_bind]
  rw [show slotRun live [SlotEv.alloc n] = some (n :: live) by simp [slotRun, hg]]
  simp only [Option.some_bind]
  rw [h2]
  simp [slotRun]

/-- Two nested saved results, as emitted for a two-branch if-then-else. -/
theorem slotRun_combo2 (live : List Nat) (n : Nat) (E0 E1 E2 : List SlotEv)
    (h0 : slotRun live E0 = some live)
    (h1 : slotRun (n :: live) E1 = some (n :: live))
    (h2 : slotRun ((n + 1) :: n :: live) E2 = some ((n + 1) :: n :: live))
    (hlt : ∀ m ∈ live, m < n) :
    slotRun live (E0 ++ [SlotEv.alloc n] ++ E1 ++ [SlotEv.alloc (n + 1)] ++ E2 ++
      [SlotEv.free (n + 1), SlotEv.free n]) = some live := by
  have hg : live.all (fun m => decide (m < n)) = true :=
    List.all_eq_true.2 (fun m hm => decide_eq_true (hlt m hm))
  have hg2 : (n :: live).all (fun m => decide (m < n + 1)) = true := by
    refine List.all_eq_true.2 (fun m hm => decide_eq_true ?_)
    rcases List.mem_cons.1 hm with rfl | hm
    · omega
    · have := hlt m hm
      omega
  rw [slotRun_append, slotRun_append, slotRun_append, slotRun_append,
    slotRun_append, h0]
  simp only [Option.some_bind]
  rw [show slotRun live [SlotEv.alloc n] = some (n :: live) by simp [slotRun, hg]]
  simp only [Option.some_bind]
  rw [h1]
  simp only [Option.some_bind]
  rw [show slotRun (n :: live) [SlotEv.alloc (n + 1)] = some ((n + 1) :: n :: live) by
    simp [slotRun, hg2]]
  simp only [Option.some_bind]
  rw [h2]
  simp [slotRun]

theorem slotEvents_ifThenWrap (lvl br : Nat) (b : Bool) (bo : Out) :
    slotEvents (ifThenWrap lvl br b bo).1 = slotEvents bo.1 := by
  cases b <;>
    · simp only [ifThenWrap]
      rw [slotEvents_append, slotEvents_append]
      exact (by simp :
        (([] : List SlotEv) ++ slotEvents bo.1) ++ ([] : List SlotEv) = slotEvents bo.1)

theorem slotEvents_scj (axis : String) (k ns loc : Option String) :
    slotEvents (loopLiftedSCJ axis k ns loc) = [] := by
  unfold loopLiftedSCJ
  split
  · cases ns <;> cases loc <;> rfl
  · cases k
    · cases ns <;> cases loc <;> rfl
    · rfl

theorem slotEvents_assemble (axis : String) (scj : List Chunk)
    (h : slotEvents scj = []) :
    slotEvents (locstepsAssemble axis scj) = [] := by
  unfold locstepsAssemble
  rw [slotEvents_append, slotEvents_append, slotEvents_append, slotEvents_append, h]
  split <;> rfl

theorem slotEvents_locsteps (ax : AxK) (tst : TK) (cs : List Chunk)
    (h : translateLocstepsM ax tst = .ok cs) : slotEvents cs = [] := by
  unfold translateLocstepsM at h
  cases hax : axisStr ax <;> rw [hax] at h
  · exact Except.noConfusion h
  · cases tst <;>
      simp only at h <;>
      first
        | exact Except.noConfusion h
        | (injection h with h; subst h; exact slotEvents_assemble _ _ (slotEvents_scj _ _ _ _))

/-- Claim C9: saved-result slots obey stack discipline under every
successful translation.  Starting from any stack of live slot numbers
bounded by the entry counter, running the emitted save/delete events
allocates each slot at a number strictly above all live slots, frees it
with the matching `deleteResult` after the combination code, nests
lifetimes properly, and restores exactly the entry stack (so the counter
visible to the caller is unchanged). -/
theorem claim9_thm (t : ACnode) :
    ∀ (lvl ctr : Nat) (o : Out) (live : List Nat),
      t2m t lvl ctr = .ok o → (∀ m ∈ live, m ≤ ctr) →
      slotRun live (slotEvents o.1) = some live := by
  have hlift : ∀ (c : Nat) (live : List Nat), (∀ m ∈ live, m ≤ c) →
      ∀ m ∈ (c + 1) :: live, m ≤ c + 1 := by
    intro c live hb m hm
    rcases List.mem_cons.1 hm with rfl | hm
    · omega
    · have := hb m hm
      omega
  have hlift2 : ∀ (c : Nat) (live : List Nat), (∀ m ∈ live, m ≤ c) →
      ∀ m ∈ (c + 2) :: (c + 1) :: live, m ≤ c + 2 := by
    intro c live hb m hm
    rcases List.mem_cons.1 hm with rfl | hm
    · omega
    · rcases List.mem_cons.1 hm with rfl | hm
      · omega
      · have := hb m hm
        omega
  induction t with
  | cvar v =>
    intro lvl ctr o live h _
    simp only [t2m] at h
    injection h with h
    subst h
    rfl
  | cseq l r ihl ihr =>
    intro lvl ctr o live h hlive
    simp only [t2m] at h
    split at h
    · injection h with h
      subst h
      rfl
    · split at h
      · exact ihr _ _ _ _ h hlive
      · split at h
        · exact ihl _ _ _ _ h hlive
        · split at h
          · exact Except.noConfusion h
          · rename_i o1 heq1
            split at h
            · exact Except.noConfusion h
            · rename_i o2 heq2
              injection h with h
              subst h
              rw [slotEvents_append, slotEvents_append, slotEvents_append]
              rw [show slotEvents [Chunk.saveResultC (ctr + 1)] =
                    [SlotEv.alloc (ctr + 1)] from rfl,
                  show slotEvents [Chunk.translateSeqC (ctr + 1),
                      Chunk.deleteResultC (ctr + 1)] = [SlotEv.free (ctr + 1)] from rfl]
              exact slotRun_combo live (ctr + 1) _ _ (ihl _ _ _ _ heq1 hlive)
                (ihr _ _ _ _ heq2 (hlift ctr live hlive))
                (fun m hm => Nat.lt_succ_of_le (hlive m hm))
  | clet v bound body ihb ihc =>
    intro lvl ctr o live h hlive
    simp only [t2m] at h
    split at h
    · exact Except.noConfusion h
    · rename_i o1 heq1
      split at h
      · exact Except.noConfusion h
      · rename_i o2 heq2
        injection h with h
        subst h
        rw [slotEvents_append, slotEvents_append,
          slotEvents_ite_nil (v.used = true) [Chunk.insertVarC lvl v.vid] [] rfl rfl]
        simp only [List.append_nil]
        rw [slotRun_append, ihb _ _ _ _ heq1 hlive]
        simp only [Option.some_bind]
        exact ihc _ _ _ _ heq2 hlive
  | cfor v pv fid src body ihs ihb =>
    intro lvl ctr o live h hlive
    simp only [t2m] at h
    split at h
    · exact Except.noConfusion h
    · rename_i o1 heq1
      split at h
      · exact Except.noConfusion h
      · rename_i o2 heq2
        injection h with h
        subst h
        rw [slotEvents_append, slotEvents_append, slotEvents_append,
          slotEvents_append, slotEvents_append]
        rw [show slotEvents [Chunk.forOpenC, Chunk.projectC (lvl + 1),
              Chunk.forVarExpC, Chunk.getExpandedC (lvl + 1) fid,
              Chunk.forIfExpandOpenC, Chunk.expandC (lvl + 1),
              Chunk.joinC (lvl + 1), Chunk.forElseC,
              Chunk.createNewVarTableC (lvl + 1), Chunk.forEndIfC] = [] from rfl,
            slotEvents_ite_nil (v.used = true) [Chunk.insertVarC (lvl + 1) v.vid] []
              rfl rfl,
            show slotEvents [Chunk.mapBackC (lvl + 1),
              Chunk.cleanUpLevelC (lvl + 1), Chunk.forCloseC] = [] from rfl]
        rw [show slotEvents
              (match pv with
               | some p =>
                 if p.used then
                   [Chunk.createEnumerationC, Chunk.insertVarC (lvl + 1) p.vid]
                 else []
               | none => []) = [] from by
            cases pv with
            | none => rfl
            | some p =>
                exact slotEvents_ite_nil (p.used = true)
                  [Chunk.createEnumerationC, Chunk.insertVarC (lvl + 1) p.vid] []
                  rfl rfl]
        simp only [List.append_nil]
        rw [slotRun_append, ihs _ _ _ _ heq1 hlive]
        simp only [Option.some_bind]
        exact ihb _ _ _ _ heq2 hlive
  | cif c0 c1 c2 ih0 ih1 ih2 =>
    intro lvl ctr o live h hlive
    simp only [t2m] at h
    split at h
    · exact Except.noConfusion h
    · rename_i oc heqc
      split at h
      · split at h
        · exact Except.noConfusion h
        · rename_i bt heqt
          injection h with h
          subst h
          rw [slotEvents_append, slotEvents_append, slotEvents_append]
          rw [show slotEvents [Chunk.saveResultC (ctr + 1), Chunk.ifOpenC,
                Chunk.ifSelSkipC (ctr + 1)] = [SlotEv.alloc (ctr + 1)] from rfl,
              slotEvents_ifThenWrap,
              show slotEvents [Chunk.deleteResultC (ctr + 1)] =
                [SlotEv.free (ctr + 1)] from rfl]
          exact slotRun_combo live (ctr + 1) _ _ (ih0 _ _ _ _ heqc hlive)
            (ih1 _ _ _ _ heqt (hlift ctr live hlive))
            (fun m hm => Nat.lt_succ_of_le (hlive m hm))
      · split at h
        · split at h
          · exact Except.noConfusion h
          · rename_i be heqe
            injection h with h
            subst h
            rw [slotEvents_append, slotEvents_append, slotEvents_append]
            rw [show slotEvents [Chunk.saveResultC (ctr + 1), Chunk.ifOpenC,
                  Chunk.ifSelSkipC (ctr + 1)] = [SlotEv.alloc (ctr + 1)] from rfl,
                slotEvents_ifThenWrap,
                show slotEvents [Chunk.deleteResultC (ctr + 1)] =
                  [SlotEv.free (ctr + 1)] from rfl]
            exact slotRun_combo live (ctr + 1) _ _ (ih0 _ _ _ _ heqc hlive)
              (ih2 _ _ _ _ heqe (hlift ctr live hlive))
              (fun m hm => Nat.lt_succ_of_le (hlive m hm))
        · split at h
          · exact Except.noConfusion h
          · rename_i bt heqt
            split at h
            · exact Except.noConfusion h
            · rename_i be heqe
              injection h with h
              subst h
              rw [slotEvents_append, slotEvents_append, slotEvents_append,
                slotEvents_append, slotEvents_append]
              rw [show slotEvents [Chunk.saveResultC (ctr + 1), Chunk.ifOpenC,
                    Chunk.ifSelSkipC (ctr + 1)] = [SlotEv.alloc (ctr + 1)] from rfl,
                  show slotEvents [Chunk.saveResultC (ctr + 2)] =
                    [SlotEv.alloc (ctr + 2)] from rfl,
                  slotEvents_ifThenWrap, slotEvents_ifThenWrap,
                  show slotEvents [Chunk.translateSeqC (ctr + 2),
                      Chunk.deleteResultC (ctr + 2), Chunk.deleteResultC (ctr + 1)] =
                    [SlotEv.free (ctr + 2), SlotEv.free (ctr + 1)] from rfl]
              exact slotRun_combo2 live (ctr + 1) _ _ _
                (ih0 _ _ _ _ heqc hlive)
                (ih1 _ _ _ _ heqt (hlift ctr live hlive))
                (ih2 _ _ _ _ heqe (hlift2 ctr live hlive))
                (fun m hm => Nat.lt_succ_of_le (hlive m hm))
  | clocsteps ax tst ctx ihc =>
    intro lvl ctr o live h hlive
    simp only [t2m] at h
    split at h
    · exact Except.noConfusion h
    · rename_i o1 heq1
      split at h
      · exact Except.noConfusion h
      · rename_i cs heqs
        injection h with h
        subst h
        rw [slotEvents_append, slotEvents_locsteps ax tst cs heqs, List.append_nil]
        exact ihc _ _ _ _ heq1 hlive
  | celem nm cont ihn ihc =>
    intro lvl ctr o live h hlive
    simp only [t2m] at h
    split at h
    · exact Except.noConfusion h
    · rename_i o1 heq1
      split at h
      · exact Except.noConfusion h
      · rename_i o2 heq2
        injection h with h
        subst h
        rw [slotEvents_append, slotEvents_append, slotEvents_append,
          slotEvents_append,
          slotEvents_ite_nil (isTagN nm = true) [] [Chunk.castQNameC] rfl rfl]
        simp only [List.append_nil]
        rw [show slotEvents [Chunk.saveResultC (ctr + 1)] =
              [SlotEv.alloc (ctr + 1)] from rfl,
            show slotEvents [Chunk.loopLiftedElemConstrC (ctr + 1),
                Chunk.deleteResultC (ctr + 1)] = [SlotEv.free (ctr + 1)] from rfl]
        exact slotRun_combo live (ctr + 1) _ _ (ihn _ _ _ _ heq1 hlive)
          (ihc _ _ _ _ heq2 (hlift ctr live hlive))
          (fun m hm => Nat.lt_succ_of_le (hlive m hm))
  | cattr nm cont ihn ihc =>
    intro lvl ctr o live h hlive
    simp only [t2m] at h
    split at h
    · exact Except.noConfusion h
    · rename_i o1 heq1
      split at h
      · exact Except.noConfusion h
      · rename_i o2 heq2
        injection h with h
        subst h
        rw [slotEvents_append, slotEvents_append, slotEvents_append,
          slotEvents_append,
          slotEvents_ite_nil (isTagN nm = true) [] [Chunk.castQNameC] rfl rfl]
        simp only [List.append_nil]
        rw [show slotEvents [Chunk.saveResultC (ctr + 1)] =
              [SlotEv.alloc (ctr + 1)] from rfl,
            show slotEvents [Chunk.loopLiftedAttrConstrC lvl (ctr + 1),
                Chunk.deleteResultC (ctr + 1)] = [SlotEv.free (ctr + 1)] from rfl]
        exact slotRun_combo live (ctr + 1) _ _ (ihn _ _ _ _ heq1 hlive)
          (ihc _ _ _ _ heq2 (hlift ctr live hlive))
          (fun m hm => Nat.lt_succ_of_le (hlive m hm))
  | ctag ns loc =>
    intro lvl ctr o live h _
    simp only [t2m] at h
    injection h with h
    subst h
    rfl
  | ctext cont ihc =>
    intro lvl ctr o live h hlive
    simp only [t2m] at h
    split at h
    · exact Except.noConfusion h
    · rename_i o1 heq1
      injection h with h
      subst h
      rw [slotEvents_append,
        show slotEvents [Chunk.loopLiftedTextConstrC] = [] from rfl,
        List.append_nil]
      exact ihc _ _ _ _ heq1 hlive
  | clitStr s =>
    intro lvl ctr o live h _
    simp only [t2m] at h
    injection h with h
    subst h
    rfl
  | clitInt n =>
    intro lvl ctr o live h _
    simp only [t2m] at h
    injection h with h
    subst h
    rfl
  | clitDec v =>
    intro lvl ctr o live h _
    simp only [t2m] at h
    injection h with h
    subst h
    rfl
  | clitDbl v =>
    intro lvl ctr o live h _
    simp only [t2m] at h
    injection h with h
    subst h
    rfl
  | ctrue =>
    intro lvl ctr o live h _
    simp only [t2m] at h
    injection h with h
    subst h
    rfl
  | cfalse =>
    intro lvl ctr o live h _
    simp only [t2m] at h
    injection h with h
    subst h
    rfl
  | croot =>
    intro lvl ctr o live h _
    simp only [t2m] at h
    injection h with h
    subst h
    rfl
  | cempty =>
    intro lvl ctr o live h _
    simp only [t2m] at h
    injection h with h
    subst h
    rfl
  | cseqcast e ihe =>
    intro lvl ctr o live h hlive
    simp only [t2m] at h
    exact ihe _ _ _ _ h hlive
  | capply fn arg iha =>
    intro lvl ctr o live h hlive
    simp only [t2m] at h
    split at h
    · split at h
      · exact Except.noConfusion h
      · rename_i o1 heq1
        injection h with h
        subst h
        rw [slotEvents_append, show slotEvents [Chunk.fnDocC] = [] from rfl,
          List.append_nil]
        exact iha _ _ _ _ heq1 hlive
    · split at h
      · split at h
        · exact Except.noConfusion h
        · rename_i o1 heq1
          injection h with h
          subst h
          rw [slotEvents_append, show slotEvents [Chunk.fnDdoC] = [] from rfl,
            List.append_nil]
          exact iha _ _ _ _ heq1 hlive
      · split at h
        · split at h
          · exact Except.noConfusion h
          · rename_i o1 heq1
            injection h with h
            subst h
            rw [slotEvents_append,
              show slotEvents [Chunk.fnCountC lvl] = [] from rfl, List.append_nil]
            exact iha _ _ _ _ heq1 hlive
        · split at h
          · split at h
            · exact Except.noConfusion h
            · rename_i o1 heq1
              injection h with h
              subst h
              rw [slotEvents_append,
                show slotEvents [Chunk.fnEmptyC lvl] = [] from rfl, List.append_nil]
              exact iha _ _ _ _ heq1 hlive
          · split at h
            · split at h
              · exact Except.noConfusion h
              · rename_i o1 heq1
                injection h with h
                subst h
                rw [slotEvents_append,
                  show slotEvents [Chunk.fnNotC] = [] from rfl, List.append_nil]
                exact iha _ _ _ _ heq1 hlive
            · split at h
              · split at h
                · exact Except.noConfusion h
                · rename_i o1 heq1
                  injection h with h
                  subst h
                  rw [slotEvents_append,
                    show slotEvents [Chunk.fnBooleanC lvl] = [] from rfl,
                    List.append_nil]
                  exact iha _ _ _ _ heq1 hlive
              · injection h with h
                subst h
                rfl
  | cnil =>
    intro lvl ctr o live h _
    simp only [t2m] at h
    exact Except.noConfusion h

/-- Witness for claim C9 at the concrete tree `(true, false)` with the
empty initial stack. -/
theorem claim9_witness :
    t2m (.cseq .ctrue .cfalse) 0 0 =
      .ok ([Chunk.boolOpenC true, Chunk.translateConstC 0 "BOOL", Chunk.litCloseC,
            Chunk.saveResultC 1, Chunk.boolOpenC false,
            Chunk.translateConstC 0 "BOOL", Chunk.litCloseC,
            Chunk.translateSeqC 1, Chunk.deleteResultC 1], []) ∧
    (∀ m ∈ ([] : List Nat), m ≤ 0) ∧
    slotRun []
      (slotEvents [Chunk.boolOpenC true, Chunk.translateConstC 0 "BOOL",
        Chunk.litCloseC, Chunk.saveResultC 1, Chunk.boolOpenC false,
        Chunk.translateConstC 0 "BOOL", Chunk.litCloseC,
        Chunk.translateSeqC 1, Chunk.deleteResultC 1]) = some [] :=
  ⟨by decide, by simp,
    claim9_thm (.cseq .ctrue .cfalse) 0 0
      ([Chunk.boolOpenC true, Chunk.translateConstC 0 "BOOL", Chunk.litCloseC,
        Chunk.saveResultC 1, Chunk.boolOpenC false,
        Chunk.translateConstC 0 "BOOL", Chunk.litCloseC,
        Chunk.translateSeqC 1, Chunk.deleteResultC 1], []) [] (by decide) (by simp)⟩

end MilPrint
